import Mathlib

/-!
Verification development for the ATS resume layout and pagination engine
(src/utils/atsPdfEngine.ts).  The engine is shallowly embedded: every
definition below is a direct translation of the corresponding TypeScript
function.  Font metrics (pdf-lib widthOfTextAtSize) are modelled as a
per-character advance-width table scaled linearly by the font size, which
is exactly how pdf-lib computes string widths (no kerning).  JavaScript
numbers are modelled as exact rationals.
-/

namespace AtsEngine

/-- JavaScript whitespace test for the character classes used by the engine
regexes (ASCII subset of the JS white space class). -/
def isWsChar (c : Char) : Bool :=
  c = ' ' || c = '\t' || c = '\n' || c = '\r' || c = '\x0b' || c = '\x0c'

/-- JavaScript word-character test, the regex class backslash-w. -/
def isWordChar (c : Char) : Bool :=
  c.isAlpha || c.isDigit || c = '_'

/-- Drop trailing whitespace from a character list (String.prototype.trimEnd). -/
def trimEndChars (l : List Char) : List Char :=
  (l.reverse.dropWhile isWsChar).reverse

/-- Drop leading and trailing whitespace (String.prototype.trim). -/
def trimChars (l : List Char) : List Char :=
  trimEndChars (l.dropWhile isWsChar)

/-- String wrapper for trim. -/
def jsTrim (s : String) : String :=
  ⟨trimChars s.data⟩

/-- Replace every maximal whitespace run by a single space; with a final trim
this models text.replace of the whitespace-run regex by a single space. -/
def collapseWsAux : Bool → List Char → List Char
  | _, [] => []
  | prevWs, c :: cs =>
    if isWsChar c then
      if prevWs then collapseWsAux true cs else ' ' :: collapseWsAux true cs
    else c :: collapseWsAux false cs

/-- Model of s.replace over the one-or-more-whitespace regex with a single
space replacement. -/
def collapseWs (s : String) : String :=
  ⟨collapseWsAux false s.data⟩

/-- Model of s.replace over the two-or-more-whitespace regex: runs of at
least two whitespace characters become one space, single whitespace
characters are kept as they are. -/
def collapseWs2Aux : Nat → List Char → List Char
  | 0, l => l
  | _ + 1, [] => []
  | _ + 1, [c] => [c]
  | fuel + 1, c :: d :: cs =>
    if isWsChar c && isWsChar d then
      ' ' :: collapseWs2Aux fuel (cs.dropWhile isWsChar)
    else c :: collapseWs2Aux fuel (d :: cs)

def collapseWs2 (s : String) : String :=
  ⟨collapseWs2Aux s.data.length s.data⟩

/-- Split on whitespace runs, dropping empty segments: models
s.split over the whitespace-run regex followed by filter(Boolean). -/
def splitWsAux (cur : List Char) : List Char → List (List Char)
  | [] => if cur.isEmpty then [] else [cur.reverse]
  | c :: cs =>
    if isWsChar c then
      if cur.isEmpty then splitWsAux [] cs else cur.reverse :: splitWsAux [] cs
    else splitWsAux (c :: cur) cs

def splitWs (s : String) : List String :=
  (splitWsAux [] s.data).map (fun l => ⟨l⟩)

/-- Array.prototype.join with a separator. -/
def joinSep (sep : String) : List String → String
  | [] => ""
  | [x] => x
  | x :: y :: xs => x ++ sep ++ joinSep sep (y :: xs)

/-- Split a character list at every occurrence of one given character,
keeping empty segments (String.prototype.split with a plain one-character
separator). -/
def splitCharAux (sep : Char) (cur : List Char) : List Char → List (List Char)
  | [] => [cur.reverse]
  | c :: cs =>
    if c = sep then cur.reverse :: splitCharAux sep [] cs
    else splitCharAux sep (c :: cur) cs

def splitChar (sep : Char) (s : String) : List String :=
  (splitCharAux sep [] s.data).map (fun l => ⟨l⟩)

/-- Model of split on a comma followed by optional whitespace, as used by
the skills code: equivalent to splitting at commas and trimming each piece
(the optional whitespace after the comma is exactly what trim removes,
and callers filter out empty pieces). -/
def splitCommaWs (s : String) : List String :=
  (splitChar ',' s).map jsTrim

/-- Remove one trailing character among ; , : - if present: models
s.replace of the optional trailing punctuation regex with the empty
string. -/
def stripTrailingPunctOne (s : String) : String :=
  match s.data.reverse with
  | [] => s
  | c :: rest =>
    if c = ';' || c = ',' || c = ':' || c = '-' then ⟨rest.reverse⟩ else s

/-- Replace the optional trailing punctuation character with a period, or
append a period when there is none: models s.replace of the optional
trailing punctuation regex with a period. -/
def replaceTrailingPunctWithDot (s : String) : String :=
  match s.data.reverse with
  | [] => "."
  | c :: rest =>
    if c = ';' || c = ',' || c = ':' || c = '-' then ⟨rest.reverse⟩ ++ "."
    else s ++ "."

/-- Number of words: trim, split on whitespace runs, count the non-empty
pieces (countWords in the source). -/
def countWords (text : String) : Nat :=
  (splitWs (jsTrim text)).length

/-- Keep the first maxWords words, drop one trailing punctuation character
and append a period (clampWords in the source). -/
def clampWords (text : String) (maxWords : Nat) : String :=
  let words := splitWs (jsTrim text)
  if words.length ≤ maxWords then jsTrim text
  else stripTrailingPunctOne (joinSep " " (words.take maxWords)) ++ "."

/-- Case-insensitive character comparison. -/
def charCIEq (a b : Char) : Bool :=
  a.toLower = b.toLower

/-- pat is a case-insensitive initial segment of s. -/
def ciLeads : List Char → List Char → Bool
  | [], _ => true
  | _ :: _, [] => false
  | a :: as, b :: bs => charCIEq a b && ciLeads as bs

/-- Global, case-insensitive, word-bounded replacement of a fixed literal
pattern: models s.replace over a global case-insensitive regex of the form
word-boundary, literal, word-boundary.  The engine only uses patterns that
start and end with word characters, for which the boundary conditions are:
the previous original character (tracked in the first argument) is absent
or not a word character, and the character right after the match is absent
or not a word character.  Matching scans left to right without overlap,
exactly like a global regex replace. -/
def replaceWordCIAux (p : Char) (ps rep : List Char) :
    Nat → Option Char → List Char → List Char
  | 0, _, l => l
  | _ + 1, _, [] => []
  | fuel + 1, prev, c :: cs =>
    let pat := p :: ps
    let s := c :: cs
    let bBefore : Bool := match prev with
      | none => true
      | some pc => !isWordChar pc
    let after := s.drop pat.length
    let bAfter : Bool := match after with
      | [] => true
      | nc :: _ => !isWordChar nc
    if ciLeads pat s && bBefore && bAfter then
      rep ++ replaceWordCIAux p ps rep fuel ((s.take pat.length).getLast?) after
    else
      c :: replaceWordCIAux p ps rep fuel (some c) cs

def replaceWordCI (pat rep s : String) : String :=
  match pat.data with
  | [] => s
  | p :: ps => ⟨replaceWordCIAux p ps rep.data s.data.length none s.data⟩

/-- Apply an ordered replacement table, as the source does with a loop over
regexp/replacement pairs. -/
def applyReplacements (rs : List (String × String)) (s : String) : String :=
  rs.foldl (fun acc pr => replaceWordCI pr.1 pr.2 acc) s

/-- Remove whitespace runs that immediately precede a comma: models
s.replace of the whitespace-then-comma regex by a comma.  Implemented on
the reversed character list, where the pattern becomes a comma followed by
a whitespace run. -/
def removeWsBeforeCommaRev : Nat → List Char → List Char
  | 0, l => l
  | _ + 1, [] => []
  | fuel + 1, c :: cs =>
    if c = ',' then ',' :: removeWsBeforeCommaRev fuel (cs.dropWhile isWsChar)
    else c :: removeWsBeforeCommaRev fuel cs

def removeWsBeforeComma (s : String) : String :=
  ⟨(removeWsBeforeCommaRev s.data.length s.data.reverse).reverse⟩

/-- Remove whitespace runs that immediately follow a comma: models
s.replace of the comma-then-whitespace regex by a comma. -/
def tightenCommaWsAux : Bool → List Char → List Char
  | _, [] => []
  | afterComma, c :: cs =>
    if afterComma && isWsChar c then tightenCommaWsAux true cs
    else if c = ',' then ',' :: tightenCommaWsAux true cs
    else c :: tightenCommaWsAux false cs

def tightenCommaWs (l : List Char) : List Char :=
  tightenCommaWsAux false l

/-- Replace every colon together with the following whitespace run by the
word using with surrounding spaces: models s.replace of the colon-optional-
whitespace regex by the string " using ". -/
def replaceColonUsing : Nat → List Char → List Char
  | 0, l => l
  | _ + 1, [] => []
  | fuel + 1, c :: cs =>
    if c = ':' then
      (" using ".data) ++ replaceColonUsing fuel (cs.dropWhile isWsChar)
    else c :: replaceColonUsing fuel cs

/-- Remove every delimited group opened by op and closed by the next cl:
models s.replace of the open-bracket, non-close-run, close-bracket regex
by the empty string.  An opener with no later closer is kept. -/
def removeDelimited (op cl : Char) : Nat → List Char → List Char
  | 0, l => l
  | _ + 1, [] => []
  | fuel + 1, c :: cs =>
    if c = op && cs.any (· = cl) then
      removeDelimited op cl fuel ((cs.dropWhile (· ≠ cl)).drop 1)
    else c :: removeDelimited op cl fuel cs

/-- Unicode pictographic characters removed by sanitizeText.  The source
uses the Extended_Pictographic property; the engine only ever feeds this
resume text, so we model the property by its main emoji and pictograph
blocks (all characters the tests and claims exercise are ASCII, where the
property is uniformly false). -/
def isPictographic (c : Char) : Bool :=
  (0x1F000 ≤ c.toNat && c.toNat ≤ 0x1FAFF) ||
  (0x2600 ≤ c.toNat && c.toNat ≤ 0x27BF) ||
  (0x2B00 ≤ c.toNat && c.toNat ≤ 0x2BFF) ||
  c.toNat = 0xFE0F

/-- Bullet glyphs normalized to a plain dash by sanitizeText. -/
def isBulletGlyph (c : Char) : Bool :=
  c.toNat = 0x2022 || c.toNat = 0x25CF || c.toNat = 0x25AA || c.toNat = 0x25E6

/-- Control characters mapped to a space by sanitizeText. -/
def isControlChar (c : Char) : Bool :=
  c.toNat ≤ 0x1F || c.toNat = 0x7F

/-- sanitizeText from the source: collapse whitespace and trim, then strip
pictographs, normalize bullet glyphs to dashes, replace control characters
by spaces, and collapse whitespace again. -/
def sanitizeText (input : String) : String :=
  let s := jsTrim (collapseWs input)
  if s = "" then ""
  else
    let out1 := s.data.filter (fun c => !isPictographic c)
    let out2 := out1.map (fun c => if isBulletGlyph c then '-' else c)
    let out3 := out2.map (fun c => if isControlChar c then ' ' else c)
    jsTrim (collapseWs ⟨out3⟩)

/-- compressToWordBudget from the source: sanitize, strip parentheticals
and bracketed asides, collapse whitespace, and clamp to the maximum word
count when over it. -/
def compressToWordBudget (text : String) (maxWords : Nat) : String :=
  let t0 := sanitizeText text
  let t1 : String := ⟨removeDelimited '(' ')' t0.data.length t0.data⟩
  let t2 : String := ⟨removeDelimited '[' ']' t1.data.length t1.data⟩
  let t := jsTrim (collapseWs t2)
  if countWords t ≤ maxWords then t else clampWords t maxWords

/-- Font model: the per-character advance width at font size one.  pdf-lib
widthOfTextAtSize is linear in the size and additive over characters. -/
structure Font where
  charWidth : Char → ℚ

/-- pdf-lib font.widthOfTextAtSize(text, size). -/
def widthOfTextAtSize (f : Font) (text : String) (size : ℚ) : ℚ :=
  size * (text.data.map f.charWidth).sum

/-- Text style: font, size, absolute line height, as in the source. -/
structure TextStyle where
  font : Font
  size : ℚ
  lineHeight : ℚ

/-- Split into paragraphs: models s.split over the optional-carriage-
return-then-newlines regex.  A carriage return not followed by a newline
is ordinary content. -/
def splitNlAux : Nat → List Char → List Char → List (List Char)
  | 0, cur, l => [cur.reverse ++ l]
  | _ + 1, cur, [] => [cur.reverse]
  | fuel + 1, cur, '\r' :: '\n' :: cs =>
    cur.reverse :: splitNlAux fuel [] (cs.dropWhile (· = '\n'))
  | fuel + 1, cur, '\n' :: cs =>
    cur.reverse :: splitNlAux fuel [] (cs.dropWhile (· = '\n'))
  | fuel + 1, cur, c :: cs => splitNlAux fuel (c :: cur) cs

def splitNl (s : String) : List String :=
  (splitNlAux s.data.length [] s.data).map (fun l => ⟨l⟩)

/-- Inner loop of hardBreakWord: starting from the initial cut, decrement
while the cut is above one and the prefix of that length is still wider
than maxWidth. -/
def hardBreakCut (f : Font) (size : ℚ) (w : List Char) (maxW : ℚ) : Nat → Nat
  | 0 => 0
  | 1 => 1
  | n + 2 =>
    if maxW < widthOfTextAtSize f ⟨w.take (n + 2)⟩ size then
      hardBreakCut f size w maxW (n + 1)
    else n + 2

/-- Cut length chosen for one chunk: start at the minimum of the word
length and sixteen, as in the source loop. -/
def hardBreakStep (f : Font) (size : ℚ) (maxW : ℚ) (w : List Char) : Nat :=
  hardBreakCut f size w maxW (min w.length 16)

/-- hardBreakWord from the source: repeatedly cut the longest prefix of at
most sixteen characters that fits (never fewer than one character), until
the word is exhausted. -/
def hardBreakWordChars (f : Font) (size : ℚ) (maxW : ℚ) : Nat → List Char → List (List Char)
  | 0, _ => []
  | _ + 1, [] => []
  | fuel + 1, c :: cs =>
    (c :: cs).take (hardBreakStep f size maxW (c :: cs)) ::
      hardBreakWordChars f size maxW fuel ((c :: cs).drop (hardBreakStep f size maxW (c :: cs)))

def hardBreakWord (f : Font) (size : ℚ) (word : String) (maxW : ℚ) : List String :=
  (hardBreakWordChars f size maxW word.data.length word.data).map (fun l => ⟨l⟩)

/-- The candidate line of the wrap loop: the next word alone when the
current line is empty, otherwise the current line, a space, and the next
word. -/
def wrapCandidate (current w : String) : String :=
  if current = "" then w else current ++ " " ++ w

/-- Greedy word wrap over one paragraph, threading the current line, as in
the wrapText loop of the source. -/
def wrapWords (f : Font) (size : ℚ) (maxW : ℚ) : String → List String → List String
  | current, [] => if current = "" then [] else [current]
  | current, w :: ws =>
    if widthOfTextAtSize f (wrapCandidate current w) size ≤ maxW then
      wrapWords f size maxW (wrapCandidate current w) ws
    else
      (if current = "" then [] else [current]) ++
      (if maxW < widthOfTextAtSize f w size then
        hardBreakWord f size w maxW ++ wrapWords f size maxW "" ws
      else wrapWords f size maxW w ws)

/-- wrapText from the source: split into trimmed non-empty paragraphs,
then greedily pack words of each paragraph into lines, hard-breaking any
word wider than maxWidth. -/
def wrapText (f : Font) (size : ℚ) (text : String) (maxW : ℚ) : List String :=
  let paragraphs := ((splitNl text).map jsTrim).filter (fun p => p ≠ "")
  paragraphs.flatMap (fun para => wrapWords f size maxW "" (splitWs para))

/-- Binary search loop of truncateToWidth: find the longest prefix whose
width plus the ellipsis width still fits.  The fuel bounds the iteration
count; the interval strictly shrinks each step, so fuel equal to the text
length plus one reproduces the source loop exactly. -/
def truncSearch (f : Font) (size : ℚ) (t : List Char) (maxW ellW : ℚ) :
    Nat → Nat → Nat → Nat
  | 0, lo, _ => lo
  | fuel + 1, lo, hi =>
    if lo < hi then
      let mid := (lo + hi + 1) / 2
      if widthOfTextAtSize f ⟨t.take mid⟩ size + ellW ≤ maxW then
        truncSearch f size t maxW ellW fuel mid hi
      else truncSearch f size t maxW ellW fuel lo (mid - 1)
    else lo

/-- truncateToWidth from the source: return the trimmed text when it fits,
otherwise the longest prefix that together with an ellipsis fits, with
trailing whitespace removed, followed by the ellipsis. -/
def truncateToWidth (f : Font) (size : ℚ) (text : String) (maxW : ℚ) : String :=
  let t := jsTrim text
  if t = "" then ""
  else if widthOfTextAtSize f t size ≤ maxW then t
  else
    let ellW := widthOfTextAtSize f "..." size
    let lo := truncSearch f size t.data maxW ellW (t.data.length + 1) 0 t.data.length
    (⟨trimEndChars (t.data.take lo)⟩ : String) ++ "..."

/-! Global layout constants from the source, as exact rationals. -/

def A4_WIDTH_PT : ℚ := 595
def A4_HEIGHT_PT : ℚ := 842
def MARGIN_PT : ℚ := 57
def MIN_MARGIN_PT : ℚ := 43
def CONTENT_WIDTH_PT : ℚ := A4_WIDTH_PT - MARGIN_PT * 2
def CONTENT_HEIGHT_PT : ℚ := A4_HEIGHT_PT - MARGIN_PT * 2

def FONT_SIZE_NAME : ℚ := 18
def FONT_SIZE_HEADING : ℚ := 12
def FONT_SIZE_BODY : ℚ := 11
def FONT_SIZE_META : ℚ := 10

def LH_BODY : ℚ := 23 / 20
def LH_BULLET : ℚ := 11 / 10
def LH_HEADING : ℚ := 12 / 10

def GAP_HEADING_TO_CONTENT : ℚ := 9
def GAP_BETWEEN_BULLETS : ℚ := 3
def GAP_BETWEEN_SECTIONS : ℚ := 14

def SUMMARY_MAX_HEIGHT_PT : ℚ := 70
def SUMMARY_MAX_LINES : Nat := 4

def ROLE_HEADER_HEIGHT_PT : ℚ := 32
def ROLE_GAP_AFTER_HEADER_PT : ℚ := 2
def ROLE_MAX_HEIGHT_ONE_PAGE_PT : ℚ := 100
def ROLE_MAX_HEIGHT_TWO_PAGE_PT : ℚ := 120
def ROLE_BULLETS_MIN : Nat := 2
def ROLE_BULLETS_MAX_ONE_PAGE : Nat := 2
def ROLE_BULLETS_MAX_TWO_PAGE : Nat := 3
def BULLET_WORDS_MIN : Nat := 16
def BULLET_WORDS_MAX : Nat := 20

def PROJECTS_MAX_ONE_PAGE : Nat := 2
def PROJECTS_MAX_TWO_PAGE : Nat := 4
def PROJECTS_GAP_AFTER_HEADER_PT : ℚ := 6
def PROJECT_TITLE_FONT_SIZE : ℚ := 12
def PROJECT_TITLE_LINE_HEIGHT : ℚ := 132 / 10
def PROJECT_TITLE_TO_BULLETS_GAP_PT : ℚ := 2
def PROJECT_BULLETS_MAX : Nat := 2
def PROJECT_BULLET_WORDS_MIN : Nat := 18
def PROJECT_BULLET_WORDS_MAX : Nat := 22
def PROJECT_MAX_HEIGHT_ONE_PAGE_PT : ℚ := 65
def PROJECT_MAX_HEIGHT_TWO_PAGE_PT : ℚ := 75

def SKILLS_MAX_CATEGORIES : Nat := 4
def SKILLS_MAX_LINES : Nat := 4
def SKILLS_MAX_CHARS_PER_LINE : Nat := 90
def SKILLS_MAX_HEIGHT_ONE_PAGE_PT : ℚ := 55
def SKILLS_MAX_HEIGHT_TWO_PAGE_PT : ℚ := 70
def SKILLS_MAX_PER_CATEGORY_ONE_PAGE : Nat := 8
def SKILLS_MAX_PER_CATEGORY_TWO_PAGE : Nat := 10

def EDUCATION_ENTRY_HEIGHT_PT : ℚ := 32
def EDUCATION_TWO_ENTRIES_MAX_HEIGHT_PT : ℚ := 65
def EDUCATION_MAX_ENTRIES_ONE_PAGE : Nat := 1
def EDUCATION_MAX_ENTRIES_TWO_PAGE : Nat := 2

def HEADER_MAX_WIDTH_PT : ℚ := 482
def HEADER_MAX_HEIGHT_PT : ℚ := 55
def HEADER_NAME_FONT_SIZE : ℚ := 18
def HEADER_NAME_LINE_HEIGHT : ℚ := 19
def HEADER_TITLE_FONT_SIZE : ℚ := 12
def HEADER_TITLE_FONT_SIZE_MIN : ℚ := 115 / 10
def HEADER_TITLE_LINE_HEIGHT : ℚ := 13
def HEADER_CONTACT_FONT_SIZE : ℚ := 10
def HEADER_CONTACT_LINE_HEIGHT : ℚ := 10
def HEADER_GAP_TITLE_TO_CONTACT : ℚ := 2

/-- Requested or used layout mode. -/
inductive RequestedMode where
  | onePage
  | twoPage
  | multiPage
deriving DecidableEq

/-- The fixed style table from makeStyles. -/
structure Styles where
  name : TextStyle
  heading : TextStyle
  body : TextStyle
  bodyBold : TextStyle
  meta : TextStyle
  jobTitle : TextStyle
  projectTitle : TextStyle
  bullet : TextStyle

/-- makeStyles from the source. -/
def makeStyles (fontRegular fontBold : Font) : Styles where
  name := ⟨fontBold, FONT_SIZE_NAME, FONT_SIZE_NAME * (11 / 10)⟩
  heading := ⟨fontBold, FONT_SIZE_HEADING, FONT_SIZE_HEADING * LH_HEADING⟩
  body := ⟨fontRegular, FONT_SIZE_BODY, FONT_SIZE_BODY * LH_BODY⟩
  bodyBold := ⟨fontBold, FONT_SIZE_BODY, FONT_SIZE_BODY * LH_BODY⟩
  meta := ⟨fontRegular, FONT_SIZE_META, FONT_SIZE_META * (11 / 10)⟩
  jobTitle := ⟨fontBold, 12, 12 * LH_HEADING⟩
  projectTitle := ⟨fontBold, PROJECT_TITLE_FONT_SIZE, PROJECT_TITLE_LINE_HEIGHT⟩
  bullet := ⟨fontRegular, FONT_SIZE_BODY, FONT_SIZE_BODY * LH_BULLET⟩

/-! Layout model types from the source. -/

structure PdfBullet where
  lines : List String
deriving DecidableEq

structure PdfJob where
  role : String
  company : String
  dates : String
  loc : Option String
  bullets : List PdfBullet
deriving DecidableEq

structure PdfEducation where
  line1 : String
  line2 : String
deriving DecidableEq

structure PdfProject where
  title : String
  bullets : List PdfBullet
deriving DecidableEq

structure PdfContact where
  email : Option String
  phone : Option String
  loc : Option String
  linkedin : Option String
  github : Option String
  portfolio : Option String
deriving DecidableEq

structure PdfHeader where
  name : String
  title : String
  contact : PdfContact
deriving DecidableEq

structure PdfHeaderLayout where
  nameLine : String
  titleLine : String
  titleFontSize : ℚ
  contactLines : List String
deriving DecidableEq

inductive PdfSectionItem where
  | paragraph (lines : List String)
  | skills (lines : List String)
  | job (job : PdfJob)
  | educationEntry (entry : PdfEducation)
  | projects (project : PdfProject)
  | bullets (bullets : List PdfBullet)
deriving DecidableEq

structure PdfSection where
  title : String
  items : List PdfSectionItem
deriving DecidableEq

structure PdfModel where
  header : PdfHeader
  sections : List PdfSection
deriving DecidableEq

/-! Input document type (ResumeProfile from src/types.ts, together with
the optionally attached canonical record the engine reads through
optional chaining). -/

structure ResumePersonal where
  name : String
  email : String
  phone : String
  loc : String
  linkedin : String
  github : String
deriving DecidableEq

structure ResumeSkills where
  programming_languages : List String
  frameworks : List String
  tools : List String
  databases : List String
  concepts : List String
deriving DecidableEq

structure ResumeExperience where
  company : String
  role : String
  duration : String
  loc : String
  achievements : List String
deriving DecidableEq

structure ResumeProject where
  name : String
  tech_stack : List String
  description : String
  impact : String
deriving DecidableEq

structure ResumeEducation where
  degree : String
  institution : String
  year : String
  cgpa : String
deriving DecidableEq

structure CanonicalBasics where
  portfolio : String
deriving DecidableEq

structure CanonicalEducationEntry where
  degree : String
  field_of_study : String
  institution : String
  start_year : String
  end_year : String
  cgpa : String
deriving DecidableEq

structure CanonicalLite where
  basics : CanonicalBasics
  education : List CanonicalEducationEntry
deriving DecidableEq

structure ResumeProfile where
  personal : ResumePersonal
  headline : String
  summary : String
  skills : ResumeSkills
  experience : List ResumeExperience
  projects : List ResumeProject
  education : ResumeEducation
  certifications : List String
  achievements : List String
  canonical : Option CanonicalLite
deriving DecidableEq

/-! Text compression helpers from the source. -/

/-- Filler word list of removeFillerAdjectives. -/
def projectFluff : List String :=
  ["highly", "very", "extremely", "innovative", "cutting-edge", "robust",
   "scalable", "seamless", "efficient", "powerful"]

/-- removeFillerAdjectives from the source: word-bounded case-insensitive
removal of each filler word, then collapse double spaces and trim. -/
def removeFillerAdjectives (text : String) : String :=
  jsTrim (collapseWs2 (applyReplacements (projectFluff.map (fun w => (w, ""))) text))

/-- Filler word list of compressSummaryAdjectives. -/
def summaryFluff : List String :=
  ["highly", "very", "extremely", "results-driven", "result-driven",
   "detail-oriented", "detail oriented", "passionate", "dynamic",
   "motivated", "proven", "seasoned", "strong"]

/-- compressSummaryAdjectives from the source. -/
def compressSummaryAdjectives (text : String) : String :=
  jsTrim (removeWsBeforeComma (collapseWs2
    (applyReplacements (summaryFluff.map (fun w => (w, ""))) text)))

/-- Replacement table of replaceSummaryPhrases. -/
def summaryPhraseReplacements : List (String × String) :=
  [("in order to", "to"), ("as well as", "and"), ("in addition to", "and"),
   ("responsible for", "led"), ("worked on", "built"), ("utilized", "used"),
   ("leveraged", "used"), ("with a focus on", "focused on")]

/-- replaceSummaryPhrases from the source. -/
def replaceSummaryPhrases (text : String) : String :=
  jsTrim (collapseWs2 (applyReplacements summaryPhraseReplacements text))

/-- Characters allowed by the technology-token test inside compactTechLists. -/
def allowedTechChar (c : Char) : Bool :=
  c.isAlpha || c.isDigit || c = '.' || c = '+' || c = '#' || c = '-' || c = ' '

/-- Parenthesized comma lists of three or more simple tokens become
slash-joined lists; all other parentheses are kept (first replacement pass
of compactTechLists). -/
def compactParens : Nat → List Char → List Char
  | 0, l => l
  | _ + 1, [] => []
  | fuel + 1, c :: cs =>
    if c = '(' && cs.any (· = ')') then
      let inside := cs.takeWhile (· ≠ ')')
      let rest := (cs.dropWhile (· ≠ ')')).drop 1
      let parts := ((splitChar ',' ⟨inside⟩).map jsTrim).filter (fun p => p ≠ "")
      let keep := '(' :: inside ++ [')']
      let transformed :=
        if parts.length < 3 then keep
        else if parts.any (fun p => p.data.contains ' ' && !(p.data.all allowedTechChar)) then keep
        else '(' :: (joinSep "/" parts).data ++ [')']
      transformed ++ compactParens fuel rest
    else c :: compactParens fuel cs

/-- Keywords of the second replacement pass of compactTechLists. -/
def techKeywords : List String := ["Tech", "Stack", "Technologies", "Skills"]

/-- Try one keyword at the current position: keyword (case-insensitive,
original casing kept), optional whitespace, a colon, optional whitespace,
then a non-empty run free of periods and semicolons.  Returns the
replacement text together with the unconsumed remainder. -/
def techKeywordAt (kw : List Char) (s : List Char) : Option (List Char × List Char) :=
  if ciLeads kw s then
    let origKw := s.take kw.length
    let rest0 := s.drop kw.length
    let ws1 := rest0.takeWhile isWsChar
    let rest1 := rest0.dropWhile isWsChar
    match rest1 with
    | ':' :: rest2 =>
      let ws2 := rest2.takeWhile isWsChar
      let rest3 := rest2.dropWhile isWsChar
      let run := rest3.takeWhile (fun c => c ≠ '.' && c ≠ ';')
      if run = [] then none
      else
        let remainder := rest3.drop run.length
        let parts := ((splitChar ',' ⟨run⟩).map jsTrim).filter (fun p => p ≠ "")
        if parts.length < 3 then
          some (origKw ++ ws1 ++ ':' :: ws2 ++ run, remainder)
        else
          some (origKw ++ (": ").data ++ (joinSep "/" parts).data, remainder)
    | _ => none
  else none

/-- Try the keywords in the order of the regex alternation. -/
def techAnyKeyword (s : List Char) : Option (List Char × List Char) :=
  (techKeywords.map (fun kw => techKeywordAt kw.data s)).foldl
    (fun acc o => match acc with | some r => some r | none => o) none

/-- Scanner of the second pass of compactTechLists: at each position with a
word boundary before it, try the keyword pattern; on a match emit the
replacement and continue after the match, otherwise move one character.
The fuel equals the input length; every step consumes at least one
character, so the scan is exact. -/
def compactTechAux : Nat → Option Char → List Char → List Char
  | 0, _, s => s
  | _ + 1, _, [] => []
  | fuel + 1, prev, c :: cs =>
    let s := c :: cs
    let bOk : Bool := match prev with
      | none => true
      | some pc => !isWordChar pc
    match (if bOk then techAnyKeyword s else none) with
    | some (out, rem) =>
      out ++ compactTechAux fuel ((s.take (s.length - rem.length)).getLast?) rem
    | none => c :: compactTechAux fuel (some c) cs

/-- compactTechLists from the source: compact parenthesized tech lists and
keyword-introduced tech lists, then collapse double spaces and trim. -/
def compactTechLists (text : String) : String :=
  let t1 : List Char := compactParens text.data.length text.data
  let t2 : String := ⟨compactTechAux t1.length none t1⟩
  jsTrim (collapseWs2 t2)

/-- compressSummaryText from the source. -/
def compressSummaryText (text : String) : String :=
  replaceSummaryPhrases (compactTechLists (compressSummaryAdjectives (sanitizeText text)))

/-- Replacement table of compressBulletToWordRange. -/
def bulletReplacements : List (String × String) :=
  [("in order to", "to"), ("as well as", "and"), ("in addition to", "and"),
   ("responsible for", "led"), ("worked on", "built"), ("utilized", "used"),
   ("leveraged", "used")]

/-- compressBulletToWordRange from the source.  The minimum of the word
range is carried by the caller but never used by the function body, so
only the maximum is a parameter here. -/
def compressBulletToWordRange (text : String) (maxWords : Nat) : String :=
  let t0 := sanitizeText text
  let t1 : List Char := removeDelimited '(' ')' t0.data.length t0.data
  let t2 : List Char := removeDelimited '[' ']' t1.length t1
  let t3 := jsTrim (collapseWs2 ⟨t2⟩)
  let t := jsTrim (collapseWs2 (applyReplacements bulletReplacements t3))
  if countWords t ≤ maxWords then t else clampWords t maxWords

/-- Case-insensitive literal prefix consumption. -/
def ciTakeLit (lit : String) (s : List Char) : Option (List Char) :=
  if ciLeads lit.data s then some (s.drop lit.data.length) else none

/-- Alternative key-whitespace-features of the list-header regex. -/
def altKeyFeatures (s : List Char) : Option (List Char) :=
  match ciTakeLit "key" s with
  | some r => ciTakeLit "features" (r.dropWhile isWsChar)
  | none => none

/-- Alternative tech-whitespace-stack of the list-header regex. -/
def altTechStack (s : List Char) : Option (List Char) :=
  match ciTakeLit "tech" s with
  | some r => ciTakeLit "stack" (r.dropWhile isWsChar)
  | none => none

/-- Strip a leading list header such as Key features, Features, Highlights,
Tech stack, Stack or Tools followed by a colon: models s.replace of the
anchored header regex by the empty string, trying the alternatives in the
order of the alternation. -/
def stripLeadingListHeader (s : String) : String :=
  let rest := s.data.dropWhile isWsChar
  let tailParse : List Char → Option (List Char) := fun r =>
    match r.dropWhile isWsChar with
    | ':' :: r2 => some (r2.dropWhile isWsChar)
    | _ => none
  let alts : List (List Char → Option (List Char)) :=
    [altKeyFeatures, ciTakeLit "features", ciTakeLit "highlights",
     altTechStack, ciTakeLit "stack", ciTakeLit "tools"]
  let res := alts.foldl
    (fun acc alt => match acc with
      | some r => some r
      | none => match alt rest with
        | some r => tailParse r
        | none => none) none
  match res with
  | some rem => ⟨rem⟩
  | none => s

/-- stripProjectBulletDisallowedPatterns from the source: sanitize, strip a
leading list header, rewrite every colon into the word using, remove
filler adjectives, collapse double spaces and trim. -/
def stripProjectBulletDisallowedPatterns (text : String) : String :=
  let t0 := sanitizeText text
  let t1 := stripLeadingListHeader t0
  let t2 : String := ⟨replaceColonUsing t1.data.length t1.data⟩
  let t3 := removeFillerAdjectives t2
  jsTrim (collapseWs2 t3)

/-- Replacement table of compressProjectBulletToWordRange. -/
def projectBulletReplacements : List (String × String) :=
  [("in order to", "to"), ("as well as", "and"), ("in addition to", "and"),
   ("responsible for", "led"), ("worked on", "built"), ("utilized", "used"),
   ("leveraged", "used"), ("implemented", "built"),
   ("that resulted in", "resulting in")]

/-- compressProjectBulletToWordRange from the source; as with the
experience variant, the minimum of the range is never used by the body. -/
def compressProjectBulletToWordRange (text : String) (maxWords : Nat) : String :=
  let t0 := stripProjectBulletDisallowedPatterns text
  let t1 := applyReplacements projectBulletReplacements t0
  let t2 := removeFillerAdjectives t1
  let t := jsTrim (collapseWs2 t2)
  if countWords t ≤ maxWords then t else clampWords t maxWords

/-- compactInlineList from the source. -/
def compactInlineList (text : String) : String :=
  let t := sanitizeText text
  let parts := (splitCommaWs t).filter (fun p => p ≠ "")
  if 3 ≤ parts.length then joinSep "/" parts else t

/-- Split on semicolons with surrounding whitespace, trimming the pieces
and dropping empty ones, as the source does before checking part counts. -/
def splitSemiParts (s : String) : List String :=
  ((splitChar ';' s).map jsTrim).filter (fun p => p ≠ "")

/-- Find the leftmost separator of the form whitespace-using-whitespace
(case-insensitive) with a non-empty remainder after the trailing
whitespace run: models the lazy-left anchored match the source uses to
split one bullet into a feature part and a technology part.  A match whose
remainder is only whitespace trims to the empty string in the source and
takes the same fallback path as no match, so it is reported as none. -/
def findUsingSplitAux : Nat → List Char → List Char → Option (List Char × List Char)
  | 0, _, _ => none
  | _ + 1, _, [] => none
  | fuel + 1, acc, c :: cs =>
    if isWsChar c then
      let after := cs.dropWhile isWsChar
      let matched : Option (List Char × List Char) :=
        if ciLeads "using".data after then
          let after2 := after.drop 5
          match after2.head? with
          | some d =>
            if isWsChar d then
              let rest := after2.dropWhile isWsChar
              if rest = [] then none else some (acc.reverse, rest)
            else none
          | none => none
        else none
      match matched with
      | some r => some r
      | none => findUsingSplitAux fuel ((c :: cs.takeWhile isWsChar).reverse ++ acc) after
    else findUsingSplitAux fuel (c :: acc) cs

/-- Split on the whitespace-and-whitespace separator (case-insensitive), as
used by splitBulletIntoTwo; returns the untrimmed pieces like the
JavaScript split. -/
def splitAndCIAux : Nat → List Char → List Char → List (List Char)
  | 0, acc, l => [acc.reverse ++ l]
  | _ + 1, acc, [] => [acc.reverse]
  | fuel + 1, acc, c :: cs =>
    if isWsChar c then
      let after := cs.dropWhile isWsChar
      let sep : Bool :=
        if ciLeads "and".data after then
          match (after.drop 3).head? with
          | some d => isWsChar d
          | none => false
        else false
      if sep then
        acc.reverse :: splitAndCIAux fuel [] ((after.drop 3).dropWhile isWsChar)
      else splitAndCIAux fuel ((c :: cs.takeWhile isWsChar).reverse ++ acc) after
    else splitAndCIAux fuel (c :: acc) cs

def splitAndCI (s : String) : List String :=
  (splitAndCIAux s.data.length [] s.data).map (fun l => ⟨l⟩)

/-- splitBulletIntoTwo from the source. -/
def splitBulletIntoTwo (text : String) : List String :=
  let t := sanitizeText text
  let parts := splitSemiParts t
  let semiResult : Option (List String) :=
    if 2 ≤ parts.length then
      let a := parts.headD ""
      let b := joinSep "; " (parts.drop 1)
      if 6 ≤ countWords a && 6 ≤ countWords b then some [a, b] else none
    else none
  match semiResult with
  | some r => r
  | none =>
    let andParts := splitAndCI t
    if andParts.length = 2 then
      let a := jsTrim (andParts.headD "")
      let b := jsTrim ((andParts.drop 1).headD "")
      if 8 ≤ countWords a && 8 ≤ countWords b then [a ++ ".", b] else [t]
    else [t]

/-- splitFeaturesAndTechAcrossBullets from the source. -/
def splitFeaturesAndTechAcrossBullets (bullets : List String) : List String :=
  match bullets with
  | [] => []
  | one :: [] =>
    let usingResult : Option (List String) :=
      match findUsingSplitAux one.data.length [] one.data with
      | some (leftRaw, rightRaw) =>
        let left := replaceTrailingPunctWithDot (jsTrim ⟨leftRaw⟩)
        let right := jsTrim ⟨rightRaw⟩
        if left ≠ "" && right ≠ "" then
          some [left, "Tech: " ++ compactInlineList right]
        else none
      | none => none
    match usingResult with
    | some r => r
    | none =>
      let parts := splitSemiParts one
      if 2 ≤ parts.length then
        let a := parts.headD ""
        let b := joinSep "; " (parts.drop 1)
        if 10 ≤ countWords a && 10 ≤ countWords b then [a, b] else [one]
      else [one]
  | _ => bullets

/-- mergeBulletsToCount from the source: trim and join each bullet, drop
empty texts, and when there are more texts than the target count deal them
round-robin into target-count buckets joined with semicolons. -/
def mergeBulletsToCount (bullets : List PdfBullet) (targetCount : Nat) : List PdfBullet :=
  let texts := (bullets.map (fun b => jsTrim (joinSep " " b.lines))).filter (fun t => t ≠ "")
  if texts.length ≤ targetCount then texts.map (fun t => ⟨[t]⟩)
  else if targetCount = 0 then [⟨[joinSep "; " texts]⟩]
  else
    ((List.range targetCount).map (fun r =>
      ((texts.enum).filter (fun p => p.1 % targetCount = r)).map (fun p => p.2))).map
      (fun parts => ⟨[joinSep "; " parts]⟩)

/-! Skills and education model building from the source. -/

/-- Replacement of the letter-c-plus-plus token by cpp inside
normalizeSkillKey.  The source regex puts a word boundary after the second
plus sign, which in JavaScript only holds when the next character is a
word character; the scan models that faithfully. -/
def replaceCppAux : Nat → Option Char → List Char → List Char
  | 0, _, l => l
  | _ + 1, _, [] => []
  | fuel + 1, prev, 'c' :: '+' :: '+' :: rest =>
    let bBefore : Bool := match prev with | none => true | some pc => !isWordChar pc
    let bAfter : Bool := match rest.head? with | some nc => isWordChar nc | none => false
    if bBefore && bAfter then 'c' :: 'p' :: 'p' :: replaceCppAux fuel (some '+') rest
    else 'c' :: replaceCppAux fuel (some 'c') ('+' :: '+' :: rest)
  | fuel + 1, _, c :: cs => c :: replaceCppAux fuel (some c) cs

/-- Replacement of the letter-c-hash token by csharp inside
normalizeSkillKey, with the same boundary quirk after the hash. -/
def replaceCSharpAux : Nat → Option Char → List Char → List Char
  | 0, _, l => l
  | _ + 1, _, [] => []
  | fuel + 1, prev, 'c' :: '#' :: rest =>
    let bBefore : Bool := match prev with | none => true | some pc => !isWordChar pc
    let bAfter : Bool := match rest.head? with | some nc => isWordChar nc | none => false
    if bBefore && bAfter then
      'c' :: 's' :: 'h' :: 'a' :: 'r' :: 'p' :: replaceCSharpAux fuel (some '#') rest
    else 'c' :: replaceCSharpAux fuel (some 'c') ('#' :: rest)
  | fuel + 1, _, c :: cs => c :: replaceCSharpAux fuel (some c) cs

/-- normalizeSkillKey from the source. -/
def normalizeSkillKey (skill : String) : String :=
  let t0 := (jsTrim skill).data.map Char.toLower
  let t1 := collapseWsAux false t0
  let t2 :=
    if t1.reverse.take 3 = ['s', 'j', '.'] then t1.take (t1.length - 3) ++ ['j', 's']
    else t1
  ⟨replaceCSharpAux t2.length none (replaceCppAux t2.length none t2)⟩

/-- dedupeSkills from the source: keep the first-seen casing per normalized
key, preserving insertion order. -/
def dedupeSkillsAux (seen : List String) : List String → List String
  | [] => []
  | s :: ss =>
    let key := normalizeSkillKey s
    if seen.contains key then dedupeSkillsAux seen ss
    else s :: dedupeSkillsAux (key :: seen) ss

def dedupeSkills (skills : List String) : List String :=
  dedupeSkillsAux [] skills

structure SkillCategory where
  label : String
  skills : List String
  coreCount : Nat

/-- The add helper of buildSkillsLines. -/
def skillCategoryAdd (label : String) (skills : List String) (coreCount : Nat) :
    Option SkillCategory :=
  let clean := dedupeSkills ((skills.map (fun s => jsTrim (sanitizeText s))).filter (fun s => s ≠ ""))
  if clean = [] then none else some ⟨label, clean, coreCount⟩

/-- buildSkillsLines from the source. -/
def buildSkillsLines (resume : ResumeProfile) (maxCategories maxLines : Nat) : List String :=
  let categories :=
    [skillCategoryAdd "Languages" resume.skills.programming_languages 6,
     skillCategoryAdd "Frameworks" resume.skills.frameworks 6,
     skillCategoryAdd "AI / Data" resume.skills.concepts 5,
     skillCategoryAdd "Databases & Tools" (resume.skills.databases ++ resume.skills.tools) 6].filterMap id
  ((categories.take maxCategories).take maxLines).map
    (fun c => c.label ++ ": " ++ joinSep ", " c.skills)

/-- Leftmost match of a nineteen- or twenty-prefixed four-digit year, as
parseYear scans with its regex; absent years map to minus one. -/
def findYearAux : Nat → List Char → Option Int
  | 0, _ => none
  | fuel + 1, c1 :: c2 :: c3 :: c4 :: rest =>
    if ((c1 = '1' && c2 = '9') || (c1 = '2' && c2 = '0')) && c3.isDigit && c4.isDigit then
      some ((c1.toNat - 48 : Int) * 1000 + (c2.toNat - 48 : Int) * 100 +
            (c3.toNat - 48 : Int) * 10 + (c4.toNat - 48 : Int))
    else findYearAux fuel (c2 :: c3 :: c4 :: rest)
  | _ + 1, _ => none

def parseYear (t : String) : Int :=
  match findYearAux t.data.length t.data with
  | some n => n
  | none => -1

/-- Stable descending insertion by parsed year: a new entry is placed
before the first strictly older entry, so entries with equal years keep
their original order.  Together with the left fold below this models the
stable JavaScript sort with the year-difference comparator. -/
def insertYearDesc (x : PdfEducation) : List PdfEducation → List PdfEducation
  | [] => [x]
  | y :: ys =>
    if parseYear y.line2 < parseYear x.line2 then x :: y :: ys
    else y :: insertYearDesc x ys

def sortYearDesc (l : List PdfEducation) : List PdfEducation :=
  l.foldl (fun acc x => insertYearDesc x acc) []

/-- buildEducationEntries from the source. -/
def buildEducationEntries (resume : ResumeProfile) : List PdfEducation :=
  let canonicalEdu := match resume.canonical with
    | some c => c.education
    | none => []
  let entries := canonicalEdu.filterMap (fun e =>
    let degree := jsTrim (sanitizeText (joinSep " - "
      ([e.degree, e.field_of_study].filter (fun s => s ≠ ""))))
    let institution := jsTrim (sanitizeText e.institution)
    let year := jsTrim (sanitizeText (if e.end_year ≠ "" then e.end_year else e.start_year))
    let cgpa := jsTrim (sanitizeText e.cgpa)
    if degree = "" && institution = "" then none
    else some (PdfEducation.mk
      (joinSep " — " ([degree, institution].filter (fun s => s ≠ "")))
      (joinSep " | " ([year, if cgpa ≠ "" then "CGPA: " ++ cgpa else ""].filter (fun s => s ≠ "")))))
  let entries2 :=
    if entries = [] then
      if resume.education.institution ≠ "" || resume.education.degree ≠ "" then
        let degree := jsTrim (sanitizeText resume.education.degree)
        let institution := jsTrim (sanitizeText resume.education.institution)
        let year := jsTrim (sanitizeText resume.education.year)
        let cgpa := jsTrim (sanitizeText resume.education.cgpa)
        [PdfEducation.mk
          (joinSep " — " ([degree, institution].filter (fun s => s ≠ "")))
          (joinSep " | " ([year, if cgpa ≠ "" then "CGPA: " ++ cgpa else ""].filter (fun s => s ≠ "")))]
      else []
    else entries
  sortYearDesc entries2

/-- buildPdfModel from the source. -/
def buildPdfModel (resume : ResumeProfile) : PdfModel :=
  let name := let n := jsTrim (sanitizeText resume.personal.name)
              if n = "" then "Your Name" else n
  let title := jsTrim (sanitizeText resume.headline)
  let portfolio := jsTrim (sanitizeText (match resume.canonical with
    | some c => c.basics.portfolio
    | none => ""))
  let summaryText := jsTrim (sanitizeText resume.summary)
  let summarySections : List PdfSection :=
    if summaryText ≠ "" then [⟨"SUMMARY", [.paragraph [summaryText]]⟩] else []
  let jobs : List PdfSectionItem :=
    (resume.experience.filter (fun j =>
      jsTrim (if j.role ≠ "" then j.role else j.company) ≠ "")).map (fun j =>
      .job ⟨jsTrim (sanitizeText j.role), jsTrim (sanitizeText j.company),
            jsTrim (sanitizeText j.duration),
            (let l := jsTrim (sanitizeText j.loc); if l = "" then none else some l),
            ((j.achievements.map (fun a => jsTrim (sanitizeText a))).filter
              (fun b => b ≠ "")).map (fun b => ⟨[b]⟩)⟩)
  let experienceSections : List PdfSection :=
    if resume.experience ≠ [] && jobs ≠ [] then [⟨"EXPERIENCE", jobs⟩] else []
  let projectItems : List PdfSectionItem :=
    (resume.projects.filter (fun p => jsTrim p.name ≠ "")).map (fun p =>
      .projects ⟨jsTrim (sanitizeText p.name),
        (([jsTrim (sanitizeText p.description), jsTrim (sanitizeText p.impact)]).filter
          (fun t => t ≠ "")).map (fun t => ⟨[t]⟩)⟩)
  let projectSections : List PdfSection :=
    if resume.projects ≠ [] && projectItems ≠ [] then [⟨"PROJECTS", projectItems⟩] else []
  let skillsLines := buildSkillsLines resume SKILLS_MAX_CATEGORIES SKILLS_MAX_LINES
  let skillsSections : List PdfSection :=
    if skillsLines ≠ [] then [⟨"SKILLS", [.skills skillsLines]⟩] else []
  let educationEntries := buildEducationEntries resume
  let educationSections : List PdfSection :=
    if educationEntries ≠ [] then
      [⟨"EDUCATION", educationEntries.map (fun e => .educationEntry e)⟩] else []
  let certs := (resume.certifications.map (fun c => jsTrim (sanitizeText c))).filter
    (fun c => c ≠ "")
  let certSections : List PdfSection :=
    if resume.certifications ≠ [] && certs ≠ [] then
      [⟨"CERTIFICATIONS", [.bullets (certs.map (fun c => ⟨[c]⟩))]⟩] else []
  { header :=
      { name := name
        title := title
        contact :=
          { email := let v := jsTrim (sanitizeText resume.personal.email)
                     if v = "" then none else some v
            phone := let v := jsTrim (sanitizeText resume.personal.phone)
                     if v = "" then none else some v
            loc := let v := jsTrim (sanitizeText resume.personal.loc)
                   if v = "" then none else some v
            linkedin := let v := jsTrim (sanitizeText resume.personal.linkedin)
                        if v = "" then none else some v
            github := let v := jsTrim (sanitizeText resume.personal.github)
                      if v = "" then none else some v
            portfolio := if portfolio = "" then none else some portfolio } }
    sections := summarySections ++ experienceSections ++ projectSections ++
      skillsSections ++ educationSections ++ certSections }

/-! Measurement, header layout and pagination from the source. -/

/-- xs is an initial segment of ys (case-sensitive). -/
def leadsList : List Char → List Char → Bool
  | [], _ => true
  | _ :: _, [] => false
  | a :: as, b :: bs => a = b && leadsList as bs

/-- First index at which needle occurs in the remaining text
(String.prototype.indexOf). -/
def indexOfSubAux (needle : List Char) (i : Nat) : List Char → Option Nat
  | [] => if leadsList needle [] then some i else none
  | c :: cs => if leadsList needle (c :: cs) then some i else indexOfSubAux needle (i + 1) cs

def indexOfSub (needle hay : List Char) : Option Nat :=
  indexOfSubAux needle 0 hay

/-- Remove bracketed qualifiers together with the surrounding whitespace,
replacing each by one space: models s.replace of the whitespace-paren-
group-whitespace regex by a space.  The fuel equals the input length;
every step consumes at least one character, so the scan is exact. -/
def removeParenWsAux : Nat → List Char → List Char
  | 0, s => s
  | _ + 1, [] => []
  | fuel + 1, c :: cs =>
    let rest := (c :: cs).dropWhile isWsChar
    match rest with
    | '(' :: r2 =>
      if r2.any (· = ')') then
        let afterClose := (r2.dropWhile (· ≠ ')')).drop 1
        ' ' :: removeParenWsAux fuel (afterClose.dropWhile isWsChar)
      else c :: removeParenWsAux fuel cs
    | _ => c :: removeParenWsAux fuel cs

/-- Smallest element of a list of naturals, when any. -/
def minNat? : List Nat → Option Nat
  | [] => none
  | x :: xs => match minNat? xs with
    | none => some x
    | some m => some (min x m)

/-- shortenProjectTitle from the source. -/
def shortenProjectTitle (styles : Styles) (title : String) (aggressive : Bool) : String :=
  let t0 := jsTrim (sanitizeText title)
  if t0 = "" then "Project"
  else
    let font := styles.projectTitle.font
    let size := styles.projectTitle.size
    let maxW := CONTENT_WIDTH_PT
    let t1 := jsTrim (collapseWs2 ⟨removeParenWsAux t0.data.length t0.data⟩)
    if widthOfTextAtSize font t1 size ≤ maxW then t1
    else
      let separators : List String := [" | ", " - ", " — ", ": ", " – "]
      let foundIdx := separators.foldl
        (fun acc sep => match acc with
          | some r => some r
          | none => match indexOfSub sep.data t1.data with
            | some idx => if 0 < idx then some idx else none
            | none => none) none
      let leftResult : Option String × String := match foundIdx with
        | some idx =>
          let left := jsTrim ⟨t1.data.take idx⟩
          if left ≠ "" ∧ widthOfTextAtSize font left size ≤ maxW then (some left, t1)
          else (none, if left ≠ "" then left else t1)
        | none => (none, t1)
      match leftResult with
      | (some l, _) => l
      | (none, t2) =>
        if !aggressive then truncateToWidth font size t2 maxW
        else
          let words := splitWs t2
          let head := joinSep " " (words.take (min 8 words.length))
          truncateToWidth font size head maxW

/-- Bullet indent (bulletIndentPt in the source). -/
def bulletIndentPt (styles : Styles) : ℚ :=
  max 12 (widthOfTextAtSize styles.bullet.font "- " styles.bullet.size + 6)

/-- measureBullets from the source: total wrapped-line height plus the
inter-bullet gaps. -/
def measureBullets (bullets : List PdfBullet) (styles : Styles) : ℚ :=
  if bullets = [] then 0
  else
    (bullets.map (fun b => (b.lines.length : ℚ) * styles.bullet.lineHeight)).sum +
      GAP_BETWEEN_BULLETS * ((bullets.length : ℚ) - 1)

/-- measureRoleHeight from the source: wrap the bullet texts and add the
fixed role header height and gap. -/
def measureRoleHeight (job : PdfJob) (styles : Styles) : ℚ :=
  let bullets := job.bullets.map (fun b =>
    PdfBullet.mk (wrapText styles.bullet.font styles.bullet.size (joinSep " " b.lines)
      (CONTENT_WIDTH_PT - bulletIndentPt styles)))
  ROLE_HEADER_HEIGHT_PT + ROLE_GAP_AFTER_HEADER_PT + measureBullets bullets styles

/-- measureProjectHeight from the source. -/
def measureProjectHeight (project : PdfProject) (styles : Styles) : ℚ :=
  let bullets := project.bullets.map (fun b =>
    PdfBullet.mk (wrapText styles.bullet.font styles.bullet.size (joinSep " " b.lines)
      (CONTENT_WIDTH_PT - bulletIndentPt styles)))
  styles.projectTitle.lineHeight + PROJECT_TITLE_TO_BULLETS_GAP_PT + measureBullets bullets styles

/-- measureItem from the source (items are assumed already wrapped by
prepareSection, as in the source). -/
def measureItem (item : PdfSectionItem) (styles : Styles) : ℚ :=
  match item with
  | .paragraph lines => (lines.length : ℚ) * styles.body.lineHeight
  | .skills lines => (lines.length : ℚ) * styles.body.lineHeight
  | .educationEntry _ => EDUCATION_ENTRY_HEIGHT_PT
  | .job job => ROLE_HEADER_HEIGHT_PT + ROLE_GAP_AFTER_HEADER_PT + measureBullets job.bullets styles
  | .projects p =>
    styles.projectTitle.lineHeight + PROJECT_TITLE_TO_BULLETS_GAP_PT +
      measureBullets (p.bullets.take PROJECT_BULLETS_MAX) styles
  | .bullets bs => measureBullets bs styles

structure PreparedSection where
  headingHeight : ℚ
  items : List PdfSectionItem
  itemHeights : List ℚ

/-- prepareSection from the source: wrap every item for measurement. -/
def prepareSection (items : List PdfSectionItem) (styles : Styles) : PreparedSection :=
  let measuredItems := items.map (fun it =>
    match it with
    | .paragraph lines =>
      .paragraph (wrapText styles.body.font styles.body.size (joinSep "\n" lines) CONTENT_WIDTH_PT)
    | .skills lines =>
      .skills (((lines.map (fun l => jsTrim (sanitizeText l))).filter
        (fun l => l ≠ "")).take SKILLS_MAX_LINES)
    | .educationEntry e => .educationEntry e
    | .job job =>
      .job { job with bullets := job.bullets.map (fun b =>
        PdfBullet.mk (wrapText styles.bullet.font styles.bullet.size (joinSep " " b.lines)
          (CONTENT_WIDTH_PT - bulletIndentPt styles))) }
    | .projects p =>
      .projects ⟨shortenProjectTitle styles p.title false,
        (p.bullets.map (fun b =>
          PdfBullet.mk (wrapText styles.bullet.font styles.bullet.size (joinSep " " b.lines)
            (CONTENT_WIDTH_PT - bulletIndentPt styles)))).take PROJECT_BULLETS_MAX⟩
    | .bullets bs =>
      .bullets (bs.map (fun b =>
        PdfBullet.mk (wrapText styles.bullet.font styles.bullet.size (joinSep " " b.lines)
          (CONTENT_WIDTH_PT - bulletIndentPt styles)))))
  ⟨styles.heading.lineHeight, measuredItems, measuredItems.map (fun it => measureItem it styles)⟩

structure SectionChunk where
  items : List PdfSectionItem
  height : ℚ

/-- chunkSectionItems from the source: repeat the heading overhead per
chunk and flush whenever adding an item would exceed a page. -/
def chunkSectionItems (items : List PdfSectionItem) (itemHeights : List ℚ)
    (headingHeight gapHeadingToContent : ℚ) : List SectionChunk :=
  let overhead := headingHeight + gapHeadingToContent
  let paired := (items.enum).map (fun p => (p.2, itemHeights.getD p.1 0))
  let final := paired.foldl
    (fun (st : List SectionChunk × List PdfSectionItem × ℚ) p =>
      let (chunks, currentItems, currentHeight) := st
      let intraGap : ℚ := if currentItems ≠ [] then 6 else 0
      let candidate := currentHeight + intraGap + p.2
      if currentItems ≠ [] ∧ candidate > CONTENT_HEIGHT_PT then
        (chunks ++ [⟨currentItems, currentHeight⟩], [p.1], overhead + p.2)
      else (chunks, currentItems ++ [p.1], currentHeight + intraGap + p.2))
    ([], [], overhead)
  match final with
  | (chunks, currentItems, currentHeight) =>
    if currentItems ≠ [] then chunks ++ [⟨currentItems, currentHeight⟩] else chunks

/-- clampTitleText from the source. -/
def clampTitleText (text : String) (maxChars : Nat) : String :=
  let t := jsTrim text
  if t.data.length ≤ maxChars then t
  else stripTrailingPunctOne ⟨trimEndChars (t.data.take maxChars)⟩ ++ "..."

/-- fitTitleToWidth from the source. -/
def fitTitleToWidth (styles : Styles) (title : String) (fontSize : ℚ)
    (aggressive : Bool) : String :=
  let font := styles.body.font
  let maxWidth := HEADER_MAX_WIDTH_PT
  let t := clampTitleText title 90
  if widthOfTextAtSize font t fontSize ≤ maxWidth then t
  else
    let pipeResult : Option String :=
      if t.data.contains '|' then
        let left := jsTrim ⟨t.data.takeWhile (· ≠ '|')⟩
        if left ≠ "" ∧ widthOfTextAtSize font left fontSize ≤ maxWidth then some left
        else none
      else none
    match pipeResult with
    | some l => l
    | none =>
      let cutResult : Option String :=
        if aggressive then
          let idxs := [',', '-', '—'].filterMap (fun sep =>
            match indexOfSub [sep] t.data with
            | some i => if 0 < i then some i else none
            | none => none)
          match minNat? idxs with
          | some cutAt =>
            let candidate := jsTrim ⟨t.data.take cutAt⟩
            if candidate ≠ "" ∧ widthOfTextAtSize font candidate fontSize ≤ maxWidth then
              some candidate
            else none
          | none => none
        else none
      match cutResult with
      | some c => c
      | none => truncateToWidth font fontSize t maxWidth

/-- Up to six rebalancing iterations of packContactLines: move the last
item of an overflowing line to the other line while it has room, stopping
as soon as neither move applies. -/
def rebalanceContacts (font : Font) (size maxWidth : ℚ) :
    Nat → List String × List String → List String × List String
  | 0, st => st
  | n + 1, (a, b) =>
    if 1 < a.length ∧ maxWidth < widthOfTextAtSize font (joinSep " | " a) size ∧ b.length < 3 then
      rebalanceContacts font size maxWidth n (a.dropLast, a.getLastD "" :: b)
    else if 1 < b.length ∧ maxWidth < widthOfTextAtSize font (joinSep " | " b) size ∧ a.length < 3 then
      rebalanceContacts font size maxWidth n (a ++ [b.getLastD ""], b.dropLast)
    else (a, b)

/-- packContactLines from the source. -/
def packContactLines (styles : Styles) (preferredLine3 preferredLine4 : List String) :
    List String :=
  let font := styles.meta.font
  let size := HEADER_CONTACT_FONT_SIZE
  let maxWidth := HEADER_MAX_WIDTH_PT
  let l3 := preferredLine3.take 3
  let l4 := preferredLine4.take 3
  let rebalanced := rebalanceContacts font size maxWidth 6 (l3, l4)
  match rebalanced with
  | (a, b) =>
    let line3Tight := maxWidth < widthOfTextAtSize font (joinSep " | " a) size
    let line4Tight := maxWidth < widthOfTextAtSize font (joinSep " | " b) size
    (if a ≠ [] then [joinSep (if line3Tight then "|" else " | ") a] else []) ++
    (if b ≠ [] then [joinSep (if line4Tight then "|" else " | ") b] else [])

/-- measureHeaderLayout from the source. -/
def measureHeaderLayout (layout : PdfHeaderLayout) : ℚ :=
  let titleLineHeight :=
    if layout.titleFontSize = HEADER_TITLE_FONT_SIZE then HEADER_TITLE_LINE_HEIGHT
    else HEADER_TITLE_LINE_HEIGHT - 1 / 2
  let contactLines : Nat := min 2 layout.contactLines.length
  HEADER_NAME_LINE_HEIGHT + titleLineHeight + HEADER_GAP_TITLE_TO_CONTACT +
    (contactLines : ℚ) * HEADER_CONTACT_LINE_HEIGHT

/-- layoutHeader from the source, including the two auto-fix passes. -/
def layoutHeader (header : PdfHeader) (styles : Styles) : PdfHeaderLayout :=
  let nameLine := let n := jsTrim (sanitizeText header.name)
                  if n = "" then "Your Name" else n
  let titleFontSize := HEADER_TITLE_FONT_SIZE
  let titleLine0 := let t := jsTrim (sanitizeText header.title)
                    if t = "" then "Software Engineer" else t
  let titleLine1 := clampTitleText titleLine0 90
  let titleLine2 := fitTitleToWidth styles titleLine1 titleFontSize false
  let clean := fun (o : Option String) => match o with
    | some v => jsTrim (sanitizeText v)
    | none => ""
  let line3 := [clean header.contact.email, clean header.contact.phone,
    clean header.contact.loc].filter (fun s => s ≠ "")
  let line4 := [clean header.contact.linkedin, clean header.contact.github,
    clean header.contact.portfolio].filter (fun s => s ≠ "")
  let packed := packContactLines styles line3 line4
  let layout1 : PdfHeaderLayout := ⟨nameLine, titleLine2, titleFontSize, packed⟩
  let step1 : String × PdfHeaderLayout :=
    if HEADER_MAX_HEIGHT_PT < measureHeaderLayout layout1 then
      let t := fitTitleToWidth styles titleLine2 titleFontSize true
      (t, ⟨nameLine, t, titleFontSize, packed⟩)
    else (titleLine2, layout1)
  match step1 with
  | (titleLine3, layout2) =>
    if HEADER_MAX_HEIGHT_PT < measureHeaderLayout layout2 then
      let fs := HEADER_TITLE_FONT_SIZE_MIN
      let t := fitTitleToWidth styles titleLine3 fs true
      ⟨nameLine, t, fs, packed⟩
    else layout2

/-! Pagination. -/

inductive LayoutBlock where
  | header (height : ℚ) (data : PdfHeaderLayout)
  | section (title : String) (height : ℚ) (items : List PdfSectionItem)
deriving DecidableEq

def LayoutBlock.height : LayoutBlock → ℚ
  | .header h _ => h
  | .section _ h _ => h

def LayoutBlock.isHeader : LayoutBlock → Bool
  | .header _ _ => true
  | .section _ _ _ => false

structure PlacedBlock where
  block : LayoutBlock
  yTop : ℚ
deriving DecidableEq

structure MeasuredPage where
  blocks : List PlacedBlock
  usedHeight : ℚ
deriving DecidableEq

/-- Chunked section blocks for one section, as built inside paginate and
paginateTwoPages. -/
def sectionChunksFor (title : String) (items : List PdfSectionItem) (styles : Styles)
    (gapHeadingToContentDefault : ℚ) : List LayoutBlock :=
  let prepared := prepareSection items styles
  let gapHeadingToContent :=
    if title = "PROJECTS" then PROJECTS_GAP_AFTER_HEADER_PT else gapHeadingToContentDefault
  (chunkSectionItems prepared.items prepared.itemHeights prepared.headingHeight
    gapHeadingToContent).map (fun c => LayoutBlock.section title c.height c.items)

/-- paginate from the source: greedy packing of blocks onto fixed-height
pages, with the header only on the first page. -/
def paginate (model : PdfModel) (styles : Styles) (tight : Bool) : List MeasuredPage :=
  let gapSection := max 8 (GAP_BETWEEN_SECTIONS - (if tight then 2 else 0))
  let gapHeadingToContentDefault := max 6 (GAP_HEADING_TO_CONTENT - (if tight then 2 else 0))
  let headerLayout := layoutHeader model.header styles
  let blocks := LayoutBlock.header (measureHeaderLayout headerLayout) headerLayout ::
    model.sections.flatMap (fun s => sectionChunksFor s.title s.items styles gapHeadingToContentDefault)
  let final := blocks.foldl
    (fun (st : List MeasuredPage × List PlacedBlock × ℚ) b =>
      let (pages, pageBlocks, used) := st
      let isFirstBlock := pages = [] ∧ pageBlocks = []
      let extraGap := if ¬isFirstBlock then gapSection else 0
      let needed := b.height + extraGap
      if b.isHeader ∧ 0 < pages.length then st
      else
        let flushed : List MeasuredPage × List PlacedBlock × ℚ :=
          if CONTENT_HEIGHT_PT < used + needed ∧ pageBlocks ≠ [] then
            (pages ++ [⟨pageBlocks, used⟩], [], 0)
          else st
        match flushed with
        | (pages2, pageBlocks2, used2) =>
          let yTop := MARGIN_PT + used2 + (if pageBlocks2 ≠ [] then extraGap else 0)
          (pages2, pageBlocks2 ++ [⟨b, yTop⟩], used2 + needed))
    ([], [], 0)
  match final with
  | (pages, pageBlocks, used) =>
    if pageBlocks ≠ [] then pages ++ [⟨pageBlocks, used⟩] else pages

/-- Retrieval from the title map built by paginateTwoPages; a JavaScript
Map keeps the last entry per key. -/
def sectionByTitle (model : PdfModel) (title : String) : Option PdfSection :=
  (model.sections.filter (fun s => s.title = title)).getLast?

/-- Placement of one block on a page of paginateTwoPages. -/
def placeBlockTP (gapSection : ℚ) (st : List PlacedBlock × ℚ) (b : LayoutBlock) :
    List PlacedBlock × ℚ :=
  let (blocks, used) := st
  let extraGap := if blocks ≠ [] then gapSection else 0
  let needed := b.height + extraGap
  let yTop := MARGIN_PT + used + (if blocks ≠ [] then extraGap else 0)
  (blocks ++ [⟨b, yTop⟩], used + needed)

/-- Summary placement loop of paginateTwoPages: place each chunk that
fits; an overflowing chunk is still placed and the loop stops. -/
def placeSummaryChunksTP (gapSection : ℚ) (st : List PlacedBlock × ℚ) :
    List LayoutBlock → List PlacedBlock × ℚ
  | [] => st
  | b :: bs =>
    if st.2 + gapSection + b.height ≤ CONTENT_HEIGHT_PT then
      placeSummaryChunksTP gapSection (placeBlockTP gapSection st b) bs
    else placeBlockTP gapSection st b

/-- Experience placement loop of paginateTwoPages: place up to two role
blocks on page one; the first role is placed unconditionally, later roles
only when they fit, and a role that does not fit is skipped without
stopping the loop. -/
def placeJobsTP (gapSection : ℚ) (st : (List PlacedBlock × ℚ) × Nat) :
    List LayoutBlock → (List PlacedBlock × ℚ) × Nat
  | [] => st
  | jb :: rest =>
    let ((blocks, used), placedJobs) := st
    if 2 ≤ placedJobs then st
    else
      let needed := gapSection + jb.height
      if used + needed ≤ CONTENT_HEIGHT_PT ∨ placedJobs = 0 then
        placeJobsTP gapSection (placeBlockTP gapSection (blocks, used) jb, placedJobs + 1) rest
      else placeJobsTP gapSection ((blocks, used), placedJobs) rest

/-- paginateTwoPages from the source. -/
def paginateTwoPages (model : PdfModel) (styles : Styles) : List MeasuredPage :=
  let gapSection := GAP_BETWEEN_SECTIONS
  let gapHeadingToContentDefault := GAP_HEADING_TO_CONTENT
  let summary := sectionByTitle model "SUMMARY"
  let experience := sectionByTitle model "EXPERIENCE"
  let otherTitles := ["PROJECTS", "SKILLS", "EDUCATION", "CERTIFICATIONS"].filter
    (fun t => (sectionByTitle model t).isSome)
  let headerLayout := layoutHeader model.header styles
  let headerBlock := LayoutBlock.header (measureHeaderLayout headerLayout) headerLayout
  let summaryChunks := match summary with
    | some s => sectionChunksFor s.title s.items styles gapHeadingToContentDefault
    | none => []
  let expItems := (match experience with
    | some e => e.items
    | none => []).filter (fun i => match i with
      | .job _ => true
      | _ => false)
  let preparedExp := prepareSection expItems styles
  let expJobBlocks := (preparedExp.items.enum).map (fun p =>
    LayoutBlock.section "EXPERIENCE"
      (preparedExp.headingHeight + gapHeadingToContentDefault + preparedExp.itemHeights.getD p.1 0)
      [p.2])
  let otherBlocks := otherTitles.flatMap (fun t => match sectionByTitle model t with
    | some s => sectionChunksFor s.title s.items styles gapHeadingToContentDefault
    | none => [])
  let st0 := placeBlockTP gapSection ([], 0) headerBlock
  let st1 := placeSummaryChunksTP gapSection st0 summaryChunks
  let stJobs := placeJobsTP gapSection (st1, 0) expJobBlocks
  match stJobs with
  | ((page1Blocks, used1), placedJobs) =>
    let page2 := ((expJobBlocks.drop placedJobs) ++ otherBlocks).foldl
      (placeBlockTP gapSection) ([], 0)
    match page2 with
    | (page2Blocks, used2) =>
      if CONTENT_HEIGHT_PT < used2 then paginate model styles false
      else if CONTENT_HEIGHT_PT < used1 then paginate model styles false
      else [⟨page1Blocks, used1⟩, ⟨page2Blocks, used2⟩]

/-- Page-one simulation loop of canEducationFitOnPage2, over the job block
heights. -/
def simPlaceJobs (gapSection : ℚ) (st : ℚ × Nat) : List ℚ → ℚ × Nat
  | [] => st
  | h :: rest =>
    let (used1, placed) := st
    if 2 ≤ placed then st
    else
      let needed := gapSection + h
      if used1 + needed ≤ CONTENT_HEIGHT_PT ∨ placed = 0 then
        simPlaceJobs gapSection (used1 + needed, placed + 1) rest
      else simPlaceJobs gapSection (used1, placed) rest

/-- canEducationFitOnPage2 from the source: simulate the two-page packing
and check whether the education section with the given number of entries
still fits on page two. -/
def canEducationFitOnPage2 (model : PdfModel) (styles : Styles) (entriesCount : Nat) : Bool :=
  let gapSection := GAP_BETWEEN_SECTIONS
  let gapHeadingToContentDefault := GAP_HEADING_TO_CONTENT
  let experience := sectionByTitle model "EXPERIENCE"
  let expItems := (match experience with
    | some e => e.items
    | none => []).filter (fun i => match i with
      | .job _ => true
      | _ => false)
  let preparedExp := prepareSection expItems styles
  let headerH := measureHeaderLayout (layoutHeader model.header styles)
  let summaryAdd : ℚ := match sectionByTitle model "SUMMARY" with
    | some s =>
      let prepared := prepareSection s.items styles
      ((chunkSectionItems prepared.items prepared.itemHeights prepared.headingHeight
        gapHeadingToContentDefault).map (fun c => gapSection + c.height)).sum
    | none => 0
  let jobBlockHs := preparedExp.itemHeights.map
    (fun h => preparedExp.headingHeight + gapHeadingToContentDefault + h)
  let sim := simPlaceJobs gapSection (headerH + summaryAdd, 0) jobBlockHs
  match sim with
  | (_, placedJobs) =>
    let used2a := (jobBlockHs.drop placedJobs).foldl
      (fun u h => u + (if u ≠ 0 then gapSection else 0) + h) 0
    let used2 := ["PROJECTS", "SKILLS"].foldl
      (fun u t => match sectionByTitle model t with
        | some s =>
          let prepared := prepareSection s.items styles
          let gap := if t = "PROJECTS" then PROJECTS_GAP_AFTER_HEADER_PT
                     else gapHeadingToContentDefault
          (chunkSectionItems prepared.items prepared.itemHeights prepared.headingHeight
            gap).foldl (fun u2 c => u2 + (if u2 ≠ 0 then gapSection else 0) + c.height) u
        | none => u) used2a
    match sectionByTitle model "EDUCATION" with
    | none => true
    | some edu =>
      let eduItems := (edu.items.filter (fun i => match i with
        | .educationEntry _ => true
        | _ => false)).take entriesCount
      if eduItems = [] then true
      else
        let headingH := styles.heading.lineHeight
        let eduContentH := (eduItems.length : ℚ) * EDUCATION_ENTRY_HEIGHT_PT +
          (if 1 < eduItems.length then 6 else 0)
        let required := headingH + gapHeadingToContentDefault + eduContentH
        if eduItems.length = 2 ∧ EDUCATION_TWO_ENTRIES_MAX_HEIGHT_PT < eduContentH then false
        else
          let remaining := CONTENT_HEIGHT_PT - used2 - (if used2 ≠ 0 then gapSection else 0)
          required ≤ remaining

/-! Contract enforcement from the source. -/

/-- The one-page or two-page contract family the enforcement functions are
parameterized over. -/
inductive ContractMode where
  | onePage
  | twoPage
deriving DecidableEq

/-- Match of the label-colon-rest pattern: a label of two to thirty-two
non-colon characters, a colon, optional whitespace, then the rest. -/
def matchLabelColon (s : String) : Option (String × String) :=
  let k := s.data.takeWhile (· ≠ ':')
  if k.length = s.data.length then none
  else if 2 ≤ k.length ∧ k.length ≤ 32 then
    some (⟨k⟩, ⟨(s.data.drop (k.length + 1)).dropWhile isWsChar⟩)
  else none

/-- Replacement of postgre-whitespace-sql by PostgreSQL, with word
boundaries at both ends, as in fitSkillsLineToCharBudget. -/
def replacePostgreSqlAux : Nat → Option Char → List Char → List Char
  | 0, _, l => l
  | _ + 1, _, [] => []
  | fuel + 1, prev, c :: cs =>
    let bBefore : Bool := match prev with
      | none => true
      | some pc => !isWordChar pc
    let matchedHere : Bool :=
      bBefore && ciLeads "postgre".data (c :: cs) &&
        (let r := ((c :: cs).drop 7).dropWhile isWsChar
         ciLeads "sql".data r &&
           (match (r.drop 3).head? with
            | some nc => !isWordChar nc
            | none => true))
    if matchedHere then
      "PostgreSQL".data ++ replacePostgreSqlAux fuel (some 'l')
        ((((c :: cs).drop 7).dropWhile isWsChar).drop 3)
    else c :: replacePostgreSqlAux fuel (some c) cs

/-- The deterministic tool merges of fitSkillsLineToCharBudget. -/
def applySkillToolMerges (s : String) : String :=
  let t1 : String := ⟨replacePostgreSqlAux s.data.length none s.data⟩
  let t2 := replaceWordCI "postgres" "PostgreSQL" t1
  let t3 := replaceWordCI "node.js" "Node.js" t2
  let t4 := replaceWordCI "react.js" "React" t3
  let t5 := replaceWordCI "amazon web services" "AWS" t4
  replaceWordCI "google cloud platform" "GCP" t5

/-- Non-core-skill dropping loop of fitSkillsLineToCharBudget, removing
from the end while the joined line is still over budget.  The fuel equals
the list length, which bounds the loop exactly. -/
def shrinkRestAux (label : String) (core : List String) (maxChars : Nat) :
    Nat → List String → List String
  | 0, r => r
  | fuel + 1, r =>
    if r ≠ [] ∧ maxChars < (label ++ ": " ++ joinSep "," (core ++ r)).data.length then
      shrinkRestAux label core maxChars fuel r.dropLast
    else r

/-- fitSkillsLineToCharBudget from the source.  String length is the
JavaScript length; all engine text here is ASCII, where it equals the
character count. -/
def fitSkillsLineToCharBudget (line : String) (maxChars : Nat) : String :=
  let t0 := jsTrim (sanitizeText line)
  if t0.data.length ≤ maxChars then t0
  else
    let t1 : String := ⟨tightenCommaWs t0.data⟩
    if t1.data.length ≤ maxChars then t1
    else
      let t2 := applySkillToolMerges t1
      if t2.data.length ≤ maxChars then t2
      else
        match matchLabelColon t2 with
        | none => ⟨t2.data.take maxChars⟩
        | some (labelRaw, restRaw) =>
          let label := jsTrim labelRaw
          let skills := (splitCommaWs restRaw).filter (fun x => x ≠ "")
          let coreCount := min 5 skills.length
          let core := skills.take coreCount
          let rest := skills.drop coreCount
          let rest2 := shrinkRestAux label core maxChars rest.length rest
          let out1 := label ++ ": " ++ joinSep "," (core ++ rest2)
          let out := if maxChars < out1.data.length then label ++ ": " ++ joinSep "," core
                     else out1
          if out.data.length ≤ maxChars then out else ⟨out.data.take maxChars⟩

/-- Per-category clamp of one skills line inside enforceSkillsContracts. -/
def enforceSkillsLine (maxPerCategory : Nat) (line : String) : String :=
  match matchLabelColon line with
  | none => line
  | some (labelRaw, restRaw) =>
    let label := jsTrim (sanitizeText labelRaw)
    let rest := jsTrim (sanitizeText restRaw)
    let skills := ((splitChar ',' rest).map (fun x => jsTrim (sanitizeText x))).filter
      (fun x => x ≠ "")
    let deduped := dedupeSkills skills
    let coreCount := min 5 deduped.length
    let core := deduped.take coreCount
    let nonCore := deduped.drop coreCount
    let kept := core ++ nonCore.take (maxPerCategory - core.length)
    label ++ ": " ++ joinSep ", " kept

/-- Height-shrinking loop of enforceSkillsContracts, dropping the last
line while over the height budget (with a floor of one line).  The fuel
equals the line count, which bounds the loop exactly. -/
def shrinkSkillsHeightAux (lh maxHeight : ℚ) : Nat → List String → List String
  | 0, lines => lines
  | fuel + 1, lines =>
    if lines ≠ [] ∧ maxHeight < (lines.length : ℚ) * lh then
      shrinkSkillsHeightAux lh maxHeight fuel (lines.take (max 1 (lines.length - 1)))
    else lines

/-- First skills item of a section, if any. -/
def firstSkillsLines : List PdfSectionItem → Option (List String)
  | [] => none
  | .skills lines :: _ => some lines
  | _ :: rest => firstSkillsLines rest

/-- enforceSkillsContracts from the source. -/
def enforceSkillsContracts (model : PdfModel) (styles : Styles) (mode : ContractMode) :
    PdfModel :=
  let maxHeight := if mode = .onePage then SKILLS_MAX_HEIGHT_ONE_PAGE_PT
                   else SKILLS_MAX_HEIGHT_TWO_PAGE_PT
  let maxPerCategory := if mode = .onePage then SKILLS_MAX_PER_CATEGORY_ONE_PAGE
                        else SKILLS_MAX_PER_CATEGORY_TWO_PAGE
  { model with sections := model.sections.map (fun s =>
    if s.title ≠ "SKILLS" then s
    else match firstSkillsLines s.items with
    | none => s
    | some lines0 =>
      let lines1 := ((lines0.map (fun l => jsTrim (sanitizeText l))).filter
        (fun l => l ≠ "")).take SKILLS_MAX_LINES
      if lines1 = [] then s
      else
        let lines2 := lines1.map (enforceSkillsLine maxPerCategory)
        let lines3 := lines2.map (fun l => fitSkillsLineToCharBudget l SKILLS_MAX_CHARS_PER_LINE)
        let lines4 := lines3.take SKILLS_MAX_LINES
        let lines5 :=
          if maxHeight < (lines4.length : ℚ) * styles.body.lineHeight then
            shrinkSkillsHeightAux styles.body.lineHeight maxHeight lines4.length lines4
          else lines4
        let lines6 := lines5.map (fun l =>
          truncateToWidth styles.body.font styles.body.size l CONTENT_WIDTH_PT)
        ⟨s.title, [.skills lines6]⟩) }

/-- First paragraph item of a section, if any. -/
def firstParagraphLines : List PdfSectionItem → Option (List String)
  | [] => none
  | .paragraph lines :: _ => some lines
  | _ :: rest => firstParagraphLines rest

/-- The eight-round height and line clamp loop of clampSummaryStrict. -/
def summaryClampIter (styles : Styles) (minWords maxWords : Nat) :
    Nat → String → String
  | 0, candidate => candidate
  | fuel + 1, candidate =>
    let lines := wrapText styles.body.font styles.body.size candidate CONTENT_WIDTH_PT
    let height := (lines.length : ℚ) * styles.body.lineHeight
    if lines.length ≤ SUMMARY_MAX_LINES ∧ height ≤ SUMMARY_MAX_HEIGHT_PT then candidate
    else
      let c1 := compressSummaryAdjectives candidate
      let c2 := compactTechLists c1
      let c3 := replaceSummaryPhrases c2
      let nextMax := max minWords (min maxWords (countWords c3 - 2))
      let c4 := if nextMax < countWords c3 then clampWords c3 nextMax else c3
      summaryClampIter styles minWords maxWords fuel c4

/-- clampSummaryStrict from the source. -/
def clampSummaryStrict (model : PdfModel) (styles : Styles) (mode : ContractMode) :
    PdfModel :=
  let minWords := if mode = .onePage then 40 else 45
  let maxWords := if mode = .onePage then 55 else 65
  { model with sections := model.sections.map (fun s =>
    if s.title ≠ "SUMMARY" then s
    else match firstParagraphLines s.items with
    | none => s
    | some lines0 =>
      let text0 := jsTrim (sanitizeText (joinSep " " lines0))
      if text0 = "" then s
      else
        let text1 := compressSummaryText text0
        let text2 := if maxWords < countWords text1 then clampWords text1 maxWords
                     else text1
        let candidate := summaryClampIter styles minWords maxWords 8 text2
        ⟨s.title, [.paragraph [candidate]]⟩) }

/-- Bullet expansion loop of enforceExperienceContracts: split bullets one
by one until the role minimum is reached. -/
def expandBulletsToMinAux (acc : List PdfBullet) : List PdfBullet → List PdfBullet
  | [] => acc
  | b :: bs =>
    let acc2 := acc ++ (splitBulletIntoTwo (joinSep " " b.lines)).map
      (fun t => PdfBullet.mk [t])
    if ROLE_BULLETS_MIN ≤ acc2.length then acc2 else expandBulletsToMinAux acc2 bs

/-- The six-attempt height-enforcement loop of enforceExperienceContracts:
merge down to the bullet minimum while possible, then compress bullet
text. -/
def expHeightLoop (styles : Styles) (maxRoleHeight : ℚ) : Nat → PdfJob → PdfJob
  | 0, j => j
  | fuel + 1, j =>
    let h := measureRoleHeight j styles
    if h ≤ maxRoleHeight then j
    else if ROLE_BULLETS_MIN < j.bullets.length then
      expHeightLoop styles maxRoleHeight fuel
        { j with bullets := mergeBulletsToCount j.bullets ROLE_BULLETS_MIN }
    else
      expHeightLoop styles maxRoleHeight fuel
        { j with bullets := j.bullets.map (fun b => PdfBullet.mk
          [compressBulletToWordRange (joinSep " " b.lines)
            (max BULLET_WORDS_MIN (BULLET_WORDS_MAX - 2))]) }

/-- Per-job body of enforceExperienceContracts. -/
def enforceExperienceJob (styles : Styles) (mode : ContractMode) (job : PdfJob) : PdfJob :=
  let maxRoleHeight := if mode = .onePage then ROLE_MAX_HEIGHT_ONE_PAGE_PT
                       else ROLE_MAX_HEIGHT_TWO_PAGE_PT
  let targetMaxBullets := if mode = .onePage then ROLE_BULLETS_MAX_ONE_PAGE
                          else ROLE_BULLETS_MAX_TWO_PAGE
  let bulletsA := ((job.bullets.map (fun b => jsTrim (sanitizeText (joinSep " " b.lines)))).filter
    (fun t => t ≠ "")).map (fun t => PdfBullet.mk [t])
  let bulletsB := if targetMaxBullets < bulletsA.length then
      mergeBulletsToCount bulletsA targetMaxBullets
    else bulletsA
  let bulletsC :=
    if bulletsB.length < ROLE_BULLETS_MIN then
      let expanded := expandBulletsToMinAux [] bulletsB
      if expanded ≠ [] then expanded.take ROLE_BULLETS_MIN else bulletsB
    else bulletsB
  let bulletsD := (bulletsC.take (max 1 targetMaxBullets)).map (fun b => PdfBullet.mk
    [compressBulletToWordRange (joinSep " " b.lines) BULLET_WORDS_MAX])
  expHeightLoop styles maxRoleHeight 6 { job with bullets := bulletsD }

/-- enforceExperienceContracts from the source. -/
def enforceExperienceContracts (model : PdfModel) (styles : Styles) (mode : ContractMode) :
    PdfModel :=
  { model with sections := model.sections.map (fun s =>
    if s.title ≠ "EXPERIENCE" then s
    else ⟨s.title, s.items.map (fun it => match it with
      | .job j => .job (enforceExperienceJob styles mode j)
      | other => other)⟩) }

/-- The six-attempt height-enforcement loop of enforceProjectsContracts:
compress bullet phrasing, strip filler adjectives again, and shorten the
title aggressively. -/
def projHeightLoop (styles : Styles) (maxHeight : ℚ) : Nat → PdfProject → PdfProject
  | 0, p => p
  | fuel + 1, p =>
    let h := measureProjectHeight p styles
    if h ≤ maxHeight then p
    else
      let b1 := p.bullets.map (fun b => PdfBullet.mk
        [compressProjectBulletToWordRange (joinSep " " b.lines)
          (max PROJECT_BULLET_WORDS_MIN (PROJECT_BULLET_WORDS_MAX - 2))])
      let b2 := b1.map (fun b => PdfBullet.mk [removeFillerAdjectives (joinSep " " b.lines)])
      projHeightLoop styles maxHeight fuel ⟨shortenProjectTitle styles p.title true, b2⟩

/-- Per-project body of enforceProjectsContracts. -/
def enforceProjectItem (styles : Styles) (mode : ContractMode) (p : PdfProject) : PdfProject :=
  let maxHeight := if mode = .onePage then PROJECT_MAX_HEIGHT_ONE_PAGE_PT
                   else PROJECT_MAX_HEIGHT_TWO_PAGE_PT
  let title0 := jsTrim (sanitizeText p.title)
  let title1 := if title0 = "" then "Project" else title0
  let title := shortenProjectTitle styles title1 false
  let bullets0 := (p.bullets.map (fun b => jsTrim (sanitizeText (joinSep " " b.lines)))).filter
    (fun t => t ≠ "")
  let bullets1 := bullets0.map stripProjectBulletDisallowedPatterns
  let bullets2 := splitFeaturesAndTechAcrossBullets bullets1
  let bullets3 := bullets2.take PROJECT_BULLETS_MAX
  let bullets4 :=
    if bullets3 = [] then
      ["Delivered project outcomes and measurable impact using ATS-safe phrasing."]
    else bullets3
  let bullets5 := bullets4.map (fun t =>
    compressProjectBulletToWordRange t PROJECT_BULLET_WORDS_MAX)
  projHeightLoop styles maxHeight 6 ⟨title, bullets5.map (fun t => PdfBullet.mk [t])⟩

/-- The project items of a section. -/
def projectItemsOf (items : List PdfSectionItem) : List PdfProject :=
  items.filterMap (fun it => match it with
    | .projects p => some p
    | _ => none)

/-- enforceProjectsContracts from the source: clamp to the per-mode
project cap and enforce each kept project's bullet and height contracts.
The section's items are replaced by the clamped project list. -/
def enforceProjectsContracts (model : PdfModel) (styles : Styles) (mode : ContractMode) :
    PdfModel :=
  let maxProjects := if mode = .onePage then PROJECTS_MAX_ONE_PAGE else PROJECTS_MAX_TWO_PAGE
  { model with sections := model.sections.map (fun s =>
    if s.title ≠ "PROJECTS" then s
    else
      let projects := projectItemsOf s.items
      if projects = [] then s
      else ⟨s.title, (projects.take maxProjects).map
        (fun p => .projects (enforceProjectItem styles mode p))⟩) }

/-- Education items of a section. -/
def isEducationItem (it : PdfSectionItem) : Bool :=
  match it with
  | .educationEntry _ => true
  | _ => false

/-- enforceEducationContracts from the source, including the two-page fit
check that may drop back to a single entry. -/
def enforceEducationContracts (model : PdfModel) (styles : Styles) (mode : ContractMode) :
    PdfModel :=
  let maxEntries := if mode = .onePage then EDUCATION_MAX_ENTRIES_ONE_PAGE
                    else EDUCATION_MAX_ENTRIES_TWO_PAGE
  let out1 : PdfModel := { model with sections := model.sections.map (fun s =>
    if s.title ≠ "EDUCATION" then s
    else
      let entries := s.items.filter isEducationItem
      if entries = [] then s
      else ⟨s.title, entries.take maxEntries⟩) }
  if mode = .twoPage then
    match out1.sections.find? (fun s => s.title = "EDUCATION") with
    | none => out1
    | some eduSection =>
      let entries := eduSection.items.filter isEducationItem
      if 2 ≤ entries.length then
        if canEducationFitOnPage2 out1 styles 2 then out1
        else { out1 with sections := out1.sections.map (fun s =>
          if s.title ≠ "EDUCATION" then s
          else ⟨s.title, (s.items.filter isEducationItem).take 1⟩) }
      else out1
  else out1

/-- enforceConstraints from the source: merge job bullets down to three
and clamp projects to four, merging surplus projects' bullet texts into
the fourth project. -/
def enforceConstraints (model : PdfModel) : PdfModel :=
  let sections := model.sections.map (fun s =>
    if s.title ≠ "EXPERIENCE" then s
    else ⟨s.title, s.items.map (fun it => match it with
      | .job j => .job { j with bullets := mergeBulletsToCount j.bullets ROLE_BULLETS_MAX_TWO_PAGE }
      | other => other)⟩)
  let sections2 := sections.map (fun s =>
    if s.title ≠ "PROJECTS" then s
    else
      let projects := projectItemsOf s.items
      if projects.length ≤ 4 then s
      else
        let kept := projects.take 4
        let extras := projects.drop 4
        let extraTexts := (extras.flatMap (fun p => p.bullets.flatMap (fun b => b.lines))).filter
          (fun t => t ≠ "")
        let lastP := kept.getLastD ⟨"", []⟩
        let appended := lastP.bullets ++ extraTexts.map (fun t => PdfBullet.mk [t])
        let newLast := PdfProject.mk lastP.title (mergeBulletsToCount appended 2)
        ⟨s.title, (kept.dropLast ++ [newLast]).map (fun p => .projects p)⟩)
  { model with sections := sections2 }

/-- compressExperienceBullets from the source. -/
def compressExperienceBullets (model : PdfModel) (targetBulletsPerJob : Nat) : PdfModel :=
  { model with sections := model.sections.map (fun s =>
    if s.title ≠ "EXPERIENCE" then s
    else ⟨s.title, s.items.map (fun it => match it with
      | .job j => .job { j with bullets := mergeBulletsToCount j.bullets targetBulletsPerJob }
      | other => other)⟩) }

/-- shortenAllBullets from the source; the target of the word budget is
carried by the caller but unused by compressToWordBudget, so only the
maximum is a parameter. -/
def shortenAllBullets (model : PdfModel) (maxWords : Nat) : PdfModel :=
  { model with sections := model.sections.map (fun s =>
    ⟨s.title, s.items.map (fun it => match it with
      | .job j => .job { j with bullets := j.bullets.map (fun b => PdfBullet.mk
          [compressToWordBudget (joinSep " " b.lines) maxWords]) }
      | .projects p => .projects { p with bullets := p.bullets.map (fun b => PdfBullet.mk
          [compressToWordBudget (joinSep " " b.lines) maxWords]) }
      | .bullets bs => .bullets (bs.map (fun b => PdfBullet.mk
          [compressToWordBudget (joinSep " " b.lines) maxWords]))
      | other => other)⟩) }

/-- enforceSectionContracts from the source: summary, experience,
projects, skills, education, in that order. -/
def enforceSectionContracts (model : PdfModel) (styles : Styles) (mode : ContractMode) :
    PdfModel :=
  enforceEducationContracts
    (enforceSkillsContracts
      (enforceProjectsContracts
        (enforceExperienceContracts
          (clampSummaryStrict model styles mode) styles mode) styles mode) styles mode)
    styles mode

/-! Adaptation pipeline (adaptToFit) and the public entry points. -/

/-- Outcome of a compression-step loop: a model that passed the fit test,
or the final model after all steps were exhausted. -/
inductive AdaptLoopResult where
  | fitted (m : PdfModel)
  | exhausted (m : PdfModel)

/-- The one-page fit test of adaptToFit: exactly one page whose used
height is within the content budget. -/
def onePageFit (pages : List MeasuredPage) : Bool :=
  match pages with
  | [p] => p.usedHeight ≤ CONTENT_HEIGHT_PT
  | _ => false

/-- The ordered one-page compression steps of adaptToFit. -/
def onePageSteps (styles : Styles) : List (PdfModel → PdfModel) :=
  [fun m => enforceExperienceContracts m styles .onePage,
   fun m => shortenAllBullets m 20,
   fun m => enforceSkillsContracts m styles .onePage,
   fun m => clampSummaryStrict m styles .onePage]

/-- The ordered two-page compression steps of adaptToFit. -/
def twoPageSteps (styles : Styles) : List (PdfModel → PdfModel) :=
  [fun m => compressExperienceBullets m 3,
   fun m => shortenAllBullets m 20,
   fun m => enforceSkillsContracts m styles .twoPage,
   fun m => clampSummaryStrict m styles .twoPage,
   fun m => enforceExperienceContracts m styles .twoPage]

/-- One-page step loop of adaptToFit: apply a step, re-enforce the section
contracts, and stop when the model fits one page. -/
def onePageLoop (styles : Styles) : List (PdfModel → PdfModel) → PdfModel → AdaptLoopResult
  | [], m => .exhausted m
  | f :: fs, m =>
    let m1 := enforceSectionContracts (f m) styles .onePage
    if onePageFit (paginate m1 styles false) then .fitted m1
    else onePageLoop styles fs m1

/-- Two-page step loop of adaptToFit. -/
def twoPageLoop (styles : Styles) : List (PdfModel → PdfModel) → PdfModel → AdaptLoopResult
  | [], m => .exhausted m
  | f :: fs, m =>
    let m1 := enforceSectionContracts (f m) styles .twoPage
    if (paginateTwoPages m1 styles).length ≤ 2 then .fitted m1
    else twoPageLoop styles fs m1

/-- adaptToFit from the source: the Contract Enforcer / Adaptive
Compressor.  Returns the adapted model and the mode actually used. -/
def adaptToFit (base : PdfModel) (styles : Styles) (requestedMode : RequestedMode) :
    PdfModel × RequestedMode :=
  match requestedMode with
  | .multiPage => (enforceConstraints base, .multiPage)
  | .twoPage =>
    let m0 := enforceSectionContracts (enforceConstraints base) styles .twoPage
    if (paginateTwoPages m0 styles).length ≤ 2 then (m0, .twoPage)
    else
      match twoPageLoop styles (twoPageSteps styles) m0 with
      | .fitted m => (m, .twoPage)
      | .exhausted m => (m, .multiPage)
  | .onePage =>
    let m0 := enforceSectionContracts (enforceConstraints base) styles .onePage
    match onePageLoop styles (onePageSteps styles) m0 with
    | .fitted m => (m, .onePage)
    | .exhausted m =>
      let m1 := enforceSectionContracts (enforceConstraints m) styles .onePage
      if onePageFit (paginate m1 styles true) then (m1, .onePage)
      else (m1, .multiPage)

/-- Result of layoutForPdf: the adapted model, the mode used, and the
measured pages, shared by rendering and assessment. -/
structure LayoutResult where
  model : PdfModel
  modeUsed : RequestedMode
  measuredPages : List MeasuredPage

/-- layoutForPdf from the source. -/
def layoutForPdf (resume : ResumeProfile) (styles : Styles)
    (requestedMode : RequestedMode) : LayoutResult :=
  let baseModel := buildPdfModel resume
  match adaptToFit baseModel styles requestedMode with
  | (model, modeUsed) =>
    ⟨model, modeUsed,
      if modeUsed = .twoPage then paginateTwoPages model styles
      else paginate model styles false⟩

/-- The mode selection shared by the entry points:
requestedPageCount of one selects one-page, two selects two-page, anything
else selects multi-page. -/
def requestedModeOfPageCount (n : Int) : RequestedMode :=
  if n = 1 then .onePage else if n = 2 then .twoPage else .multiPage

/-- Mode selection of generateAtsOptimizedPdf, including the default of
one when requestedPageCount is omitted. -/
def generateAtsRequestedMode (requestedPageCount : Option Int) : RequestedMode :=
  requestedModeOfPageCount (requestedPageCount.getD 1)

/-- Mode selection of assessAtsLayout, including the default of one when
requestedPageCount is omitted. -/
def assessAtsRequestedMode (requestedPageCount : Option Int) : RequestedMode :=
  requestedModeOfPageCount (requestedPageCount.getD 1)

/-- assertMarginsOk from the source: a margin below the floor throws, any
other margin returns normally. -/
def assertMarginsOk (marginPt : ℚ) : Except String Unit :=
  if marginPt < MIN_MARGIN_PT then
    Except.error "Margin violates minimum 43pt"
  else Except.ok ()

/-! Example fonts, documents and models used to evaluate the engine at
concrete inputs, together with small observers over its results. -/

/-- Occurrence of one character sequence inside another. -/
def occursIn (xs : List Char) : List Char → Bool
  | [] => leadsList xs []
  | c :: cs => leadsList xs (c :: cs) || occursIn xs cs

/-- Font whose every character advances half a unit per size unit,
comparable to an average Latin glyph at text sizes. -/
def halfFont : Font := ⟨fun _ => 1 / 2⟩

/-- Font with very wide glyphs, four units per size unit. -/
def wideFont : Font := ⟨fun _ => 4⟩

def halfStyles : Styles := makeStyles halfFont halfFont

def wideStyles : Styles := makeStyles wideFont wideFont

def sampleResumePersonal : ResumePersonal := ⟨"Nm", "", "", "", "", ""⟩

def sampleResumeSkills : ResumeSkills := ⟨[], [], [], [], []⟩

def sampleResumeEducation : ResumeEducation := ⟨"", "", "", ""⟩

/-- Resume with twenty bullet-less roles and three named projects: far too
tall for one page, so a one-page request must degrade to multi-page. -/
def overflowThreeProjectResume : ResumeProfile :=
  ⟨sampleResumePersonal, "", "", sampleResumeSkills,
   (List.range 20).map (fun _ => ⟨"C", "R", "D", "", []⟩),
   [⟨"P1", [], "xxx", ""⟩, ⟨"P2", [], "xxx", ""⟩, ⟨"P3", [], "xxx", ""⟩],
   sampleResumeEducation, [], [], none⟩

/-- Resume whose only content is a ten-word summary of four-letter words. -/
def longSummaryResume : ResumeProfile :=
  ⟨sampleResumePersonal, "", "aaaa bbbb cccc dddd eeee ffff gggg hhhh iiii jjjj",
   sampleResumeSkills, [], [], sampleResumeEducation, [], [], none⟩

/-- Model with a single named project that has no bullets. -/
def emptyBulletProjectModel : PdfModel :=
  ⟨⟨"Nm", "T", ⟨none, none, none, none, none, none⟩⟩,
   [⟨"PROJECTS", [.projects ⟨"P", []⟩]⟩]⟩

/-- Model with three projects of one non-empty bullet each. -/
def threeProjectModel : PdfModel :=
  ⟨⟨"Nm", "T", ⟨none, none, none, none, none, none⟩⟩,
   [⟨"PROJECTS", [.projects ⟨"P1", [⟨["aaa"]⟩]⟩, .projects ⟨"P2", [⟨["bbb"]⟩]⟩,
     .projects ⟨"P3", [⟨["ccc"]⟩]⟩]⟩]⟩

/-- A sample sentence of n four-letter words. -/
def sampleWords (n : Nat) : String :=
  joinSep " " ((List.range n).map (fun _ => "aaaa"))

/-- Model with three experience roles whose single bullets wrap (under the
wide font) to role heights such that role one fits page one, role two does
not, and role three does. -/
def threeRoleModel : PdfModel :=
  ⟨⟨"Nm", "T", ⟨none, none, none, none, none, none⟩⟩,
   [⟨"EXPERIENCE",
     [.job ⟨"R1", "C", "D", none, [⟨[sampleWords 28]⟩]⟩,
      .job ⟨"R2", "C", "D", none, [⟨[sampleWords 40]⟩]⟩,
      .job ⟨"R3", "C", "D", none, [⟨[sampleWords 8]⟩]⟩]⟩]⟩

/-- Number of project entries across all sections of a model. -/
def countProjectEntries (m : PdfModel) : Nat :=
  (m.sections.map (fun s => (projectItemsOf s.items).length)).sum

/-- All project bullet texts of a model. -/
def projBulletTexts (m : PdfModel) : List String :=
  m.sections.flatMap (fun s => (projectItemsOf s.items).flatMap
    (fun p => p.bullets.flatMap (fun b => b.lines)))

/-- Role names of all job items placed on a measured page. -/
def rolesOnPage (p : MeasuredPage) : List String :=
  p.blocks.flatMap (fun pb => match pb.block with
    | .section _ _ items => items.filterMap (fun it => match it with
      | .job j => some j.role
      | _ => none)
    | _ => [])

def rolesOnPages (pages : List MeasuredPage) : List String :=
  pages.flatMap rolesOnPage

/-- Text of the first paragraph of the first SUMMARY section. -/
def summaryTextOf (m : PdfModel) : String :=
  match m.sections.find? (fun s => s.title = "SUMMARY") with
  | some s => match firstParagraphLines s.items with
    | some ls => joinSep " " ls
    | none => ""
  | none => ""

/-- Every experience role of the model carries at most two bullets (the
one-page role bullet maximum). -/
def ExpBulletsLe2 (m : PdfModel) : Prop :=
  ∀ s ∈ m.sections, s.title = "EXPERIENCE" →
    ∀ it ∈ s.items, ∀ j : PdfJob, it = PdfSectionItem.job j → j.bullets.length ≤ 2

/-- A string is non-empty with no leading or trailing engine whitespace. -/
def TrimmedNE (s : String) : Prop :=
  s.data ≠ [] ∧ s.data.dropWhile isWsChar = s.data ∧
    s.data.reverse.dropWhile isWsChar = s.data.reverse

/-- A section the structural constraint pass leaves unchanged: experience
bullets already at their merged fixed point and at most four projects. -/
def ECStable (s : PdfSection) : Prop :=
  (s.title = "EXPERIENCE" → ∀ it ∈ s.items, ∀ j : PdfJob, it = PdfSectionItem.job j →
    mergeBulletsToCount j.bullets ROLE_BULLETS_MAX_TWO_PAGE = j.bullets) ∧
  (s.title = "PROJECTS" → (projectItemsOf s.items).length ≤ 4)

/-! General lemmas. -/

theorem dropWhile_length_le (p : Char → Bool) (l : List Char) :
    (l.dropWhile p).length ≤ l.length := by
  induction l with
  | nil => simp [List.dropWhile]
  | cons c cs ih =>
    by_cases h : p c
    · simp [List.dropWhile, h]; omega
    · simp [List.dropWhile, h]

theorem hardBreakCut_pos (f : Font) (size : ℚ) (w : List Char) (maxW : ℚ)
    (n : Nat) (h : 1 ≤ n) : 1 ≤ hardBreakCut f size w maxW n := by
  induction n with
  | zero => omega
  | succ m ih =>
    match m, ih with
    | 0, _ => simp [hardBreakCut]
    | k + 1, ih =>
      simp only [hardBreakCut]
      split
      · exact ih (by omega)
      · omega

theorem hardBreakStep_pos (f : Font) (size : ℚ) (maxW : ℚ) (c : Char)
    (cs : List Char) : 1 ≤ hardBreakStep f size maxW (c :: cs) := by
  apply hardBreakCut_pos
  simp only [List.length_cons]
  omega

/-! Claim theorems. -/

/-- C6: the margin guard assertMarginsOk throws for every margin value
strictly below the 43pt floor and returns normally for every margin at or
above the floor. -/
theorem claim_margin_guard (m : ℚ) :
    (m < 43 → assertMarginsOk m = Except.error "Margin violates minimum 43pt") ∧
    (43 ≤ m → assertMarginsOk m = Except.ok ()) := by
  constructor
  · intro h
    have hm : m < MIN_MARGIN_PT := by unfold MIN_MARGIN_PT; exact h
    simp [assertMarginsOk, hm]
  · intro h
    have hm : ¬ m < MIN_MARGIN_PT := by unfold MIN_MARGIN_PT; exact not_lt.2 h
    simp [assertMarginsOk, hm]

/-- Witness for the margin guard at the concrete margins 42 and 43. -/
theorem claim_margin_guard_witness :
    assertMarginsOk 42 = Except.error "Margin violates minimum 43pt" ∧
    assertMarginsOk 43 = Except.ok () :=
  ⟨(claim_margin_guard 42).1 (by norm_num), (claim_margin_guard 43).2 (by norm_num)⟩

/-- C10: with requestedPageCount omitted, both the render entry point and
the assessment entry point default it to one and attempt strict one-page
mode. -/
theorem claim_default_one_page :
    generateAtsRequestedMode none = RequestedMode.onePage ∧
    assessAtsRequestedMode none = RequestedMode.onePage := by
  constructor <;> rfl

/-- C5: requestedPageCount one selects one-page mode, two selects two-page
mode, any other value selects multi-page; adaptToFit returns either the
requested mode or multi-page, and a multi-page request always returns
multi-page. -/
theorem claim_mode_selection :
    requestedModeOfPageCount 1 = RequestedMode.onePage ∧
    requestedModeOfPageCount 2 = RequestedMode.twoPage ∧
    (∀ n : Int, n ≠ 1 → n ≠ 2 → requestedModeOfPageCount n = RequestedMode.multiPage) ∧
    (∀ (base : PdfModel) (styles : Styles) (r : RequestedMode),
      (adaptToFit base styles r).2 = r ∨
        (adaptToFit base styles r).2 = RequestedMode.multiPage) ∧
    (∀ (base : PdfModel) (styles : Styles),
      (adaptToFit base styles RequestedMode.multiPage).2 = RequestedMode.multiPage) := by
  refine ⟨rfl, rfl, ?_, ?_, ?_⟩
  · intro n h1 h2
    simp [requestedModeOfPageCount, h1, h2]
  · intro base styles r
    cases r with
    | multiPage => exact Or.inl rfl
    | twoPage =>
      simp only [adaptToFit]
      split
      · exact Or.inl rfl
      · split
        · exact Or.inl rfl
        · exact Or.inr rfl
    | onePage =>
      simp only [adaptToFit]
      split
      · exact Or.inl rfl
      · split
        · exact Or.inl rfl
        · exact Or.inr rfl
  · intro base styles
    rfl

/-- Witness for the mode selection claim at page count 5 and a concrete
model. -/
theorem claim_mode_selection_witness :
    requestedModeOfPageCount 5 = RequestedMode.multiPage ∧
    ((adaptToFit emptyBulletProjectModel halfStyles RequestedMode.onePage).2 = RequestedMode.onePage ∨
     (adaptToFit emptyBulletProjectModel halfStyles RequestedMode.onePage).2 = RequestedMode.multiPage) :=
  ⟨claim_mode_selection.2.2.1 5 (by decide) (by decide),
   claim_mode_selection.2.2.2.1 emptyBulletProjectModel halfStyles RequestedMode.onePage⟩

set_option maxRecDepth 200000 in
/-- C9 counterexample: for a positive maxWidth of one point and a font
whose single characters measure forty-four points, wrapText hard-breaks a
word into single characters whose measured width exceeds maxWidth, so not
every returned line fits within maxWidth. -/
theorem claim_wrap_counterexample :
    (0 : ℚ) < 1 ∧ wrapText wideFont 11 "ab" 1 = ["a", "b"] ∧
    1 < widthOfTextAtSize wideFont "a" 11 := by
  with_unfolding_all decide

set_option maxRecDepth 200000 in
/-- C2 counterexample: the bullet ccc of the third project is non-empty,
yet after enforceProjectsContracts in one-page mode no bullet of the
result contains it: the bullet was deleted, not merged or reworded. -/
theorem claim_compressor_deletes_bullet :
    (projBulletTexts threeProjectModel).contains "ccc" = true ∧
    "ccc" ≠ "" ∧
    (∀ t ∈ projBulletTexts (enforceProjectsContracts threeProjectModel halfStyles .onePage),
      occursIn "ccc".data t.data = false) := by
  with_unfolding_all decide

set_option maxRecDepth 200000 in
/-- C8: paginateTwoPages returns exactly two pages for this model, but the
pages carry role one and role three on page one and role three again on
page two: the middle role two, which did not fit page one, is dropped
entirely and role three is duplicated, contradicting the remaining-roles-
on-page-two allocation. -/
theorem claim_two_page_drops_role :
    (paginateTwoPages threeRoleModel wideStyles).length = 2 ∧
    rolesOnPages (paginateTwoPages threeRoleModel wideStyles) = ["R1", "R3", "R3"] ∧
    (threeRoleModel.sections.flatMap (fun s => s.items)).contains
      (PdfSectionItem.job ⟨"R2", "C", "D", none, [⟨[sampleWords 40]⟩]⟩) = true := by
  with_unfolding_all decide

set_option maxRecDepth 200000 in
/-- C1: a one-page request on a document with three projects and twenty
roles degrades to multi-page, yet the returned model keeps only two of
the three projects: graceful degradation silently truncates project
entries, contradicting the no-data-loss comments on the fallback paths. -/
theorem claim_degrade_truncates_projects :
    countProjectEntries (buildPdfModel overflowThreeProjectResume) = 3 ∧
    (adaptToFit (buildPdfModel overflowThreeProjectResume) halfStyles .onePage).2 =
      RequestedMode.multiPage ∧
    countProjectEntries
      (adaptToFit (buildPdfModel overflowThreeProjectResume) halfStyles .onePage).1 = 2 := by
  with_unfolding_all decide

set_option maxRecDepth 200000 in
/-- C3 counterexample: applying the adaptation pipeline to its own output
changes the model again.  A project with no bullets receives the default
bullet on the first run; the second run splits that bullet in two because
it contains the word using, so the pipeline is not idempotent. -/
theorem claim_compressor_not_idempotent :
    (adaptToFit emptyBulletProjectModel halfStyles .twoPage).2 = RequestedMode.twoPage ∧
    (adaptToFit (adaptToFit emptyBulletProjectModel halfStyles .twoPage).1
        halfStyles .twoPage).1 ≠
      (adaptToFit emptyBulletProjectModel halfStyles .twoPage).1 := by
  with_unfolding_all decide

set_option maxRecDepth 200000 in
/-- C7 counterexample: a render that reports one-page mode whose final
summary paragraph wraps to more than the four-line maximum: the eight
rounds of the summary clamp cannot shorten a ten-word summary below its
word count, and under a wide font those ten words need five lines. -/
theorem claim_one_page_summary_overflow :
    (adaptToFit (buildPdfModel longSummaryResume) wideStyles .onePage).2 =
      RequestedMode.onePage ∧
    SUMMARY_MAX_LINES <
      (wrapText wideStyles.body.font wideStyles.body.size
        (summaryTextOf (adaptToFit (buildPdfModel longSummaryResume) wideStyles .onePage).1)
        CONTENT_WIDTH_PT).length := by
  with_unfolding_all decide

/-- Each cut chosen by the hard-break inner loop either produces a prefix
that fits or has been shortened all the way down to one character. -/
theorem hardBreakCut_spec (f : Font) (size : ℚ) (w : List Char) (maxW : ℚ)
    (n : Nat) (h : 1 ≤ n) :
    hardBreakCut f size w maxW n = 1 ∨
    widthOfTextAtSize f ⟨w.take (hardBreakCut f size w maxW n)⟩ size ≤ maxW := by
  induction n with
  | zero => omega
  | succ m ih =>
    match m, ih with
    | 0, _ => exact Or.inl rfl
    | k + 1, ih =>
      simp only [hardBreakCut]
      split
      · exact ih (by omega)
      · rename_i hle
        exact Or.inr (not_lt.1 hle)

/-- Every chunk produced by the hard-break loop fits or is one character. -/
theorem hardBreakWordChars_spec (f : Font) (size maxW : ℚ) :
    ∀ (fuel : Nat) (w : List Char), ∀ chunk ∈ hardBreakWordChars f size maxW fuel w,
      widthOfTextAtSize f ⟨chunk⟩ size ≤ maxW ∨ chunk.length = 1 := by
  intro fuel
  induction fuel with
  | zero =>
    intro w chunk h
    simp [hardBreakWordChars] at h
  | succ n ih =>
    intro w chunk h
    match w with
    | [] => simp [hardBreakWordChars] at h
    | c :: cs =>
      simp only [hardBreakWordChars, List.mem_cons] at h
      rcases h with h | h
      · subst h
        have hcut := hardBreakCut_spec f size (c :: cs) maxW (min (c :: cs).length 16)
          (by simp only [List.length_cons]; omega)
        rcases hcut with h1 | h1
        · right
          simp only [hardBreakStep]
          rw [h1]
          simp
        · left
          simpa only [hardBreakStep] using h1
      · exact ih _ chunk h

/-- Every line emitted by the greedy word packer fits or is a single
hard-break character, provided the threaded current line is empty or
fits. -/
theorem wrapWords_spec (f : Font) (size maxW : ℚ) :
    ∀ (ws : List String) (current : String),
      (current = "" ∨ widthOfTextAtSize f current size ≤ maxW) →
      ∀ line ∈ wrapWords f size maxW current ws,
        widthOfTextAtSize f line size ≤ maxW ∨ line.data.length = 1 := by
  intro ws
  induction ws with
  | nil =>
    intro current hcur line h
    simp only [wrapWords] at h
    split at h
    · simp at h
    · rename_i hne
      simp only [List.mem_singleton] at h
      subst h
      rcases hcur with h0 | h0
      · exact absurd h0 hne
      · exact Or.inl h0
  | cons w ws ih =>
    intro current hcur line h
    simp only [wrapWords] at h
    split at h
    · rename_i hfit
      exact ih _ (Or.inr hfit) line h
    · rw [List.mem_append] at h
      rcases h with h | h
      · split at h
        · simp at h
        · rename_i hne
          simp only [List.mem_singleton] at h
          subst h
          rcases hcur with h0 | h0
          · exact absurd h0 hne
          · exact Or.inl h0
      · split at h
        · rw [List.mem_append] at h
          rcases h with h | h
          · simp only [hardBreakWord, List.mem_map] at h
            obtain ⟨chunk, hchunk, rfl⟩ := h
            exact hardBreakWordChars_spec f size maxW _ _ chunk hchunk
          · exact ih _ (Or.inl rfl) line h
        · rename_i hwide
          exact ih _ (Or.inr (not_lt.1 hwide)) line h

set_option maxRecDepth 8000 in
/-- C9 amended: every line returned by wrapText either has measured width
at most maxWidth or is a single hard-break character; a one-character
chunk is the only way a line can overflow the column. -/
theorem claim_wrap_amended (f : Font) (size maxW : ℚ) (text : String) (line : String)
    (h : line ∈ wrapText f size text maxW) :
    widthOfTextAtSize f line size ≤ maxW ∨ line.data.length = 1 := by
  simp only [wrapText, List.mem_flatMap] at h
  obtain ⟨para, _, hline⟩ := h
  exact wrapWords_spec f size maxW (splitWs para) "" (Or.inl rfl) line hline

set_option maxRecDepth 8000 in
/-- Witness for the amended wrapping claim on a concrete wrap. -/
theorem claim_wrap_amended_witness :
    widthOfTextAtSize halfFont "hello" 11 ≤ 30 ∨ ("hello" : String).data.length = 1 :=
  claim_wrap_amended halfFont 11 30 "hello world" "hello" (by with_unfolding_all decide)

theorem leadsList_append_self (xs ys : List Char) : leadsList xs (xs ++ ys) = true := by
  induction xs with
  | nil => simp [leadsList]
  | cons a as ih => simp [leadsList, ih]

theorem occursIn_of_leads (xs ys : List Char) (h : leadsList xs ys = true) :
    occursIn xs ys = true := by
  cases ys with
  | nil => simpa [occursIn] using h
  | cons c cs => simp [occursIn, h]

theorem occursIn_append_right (xs ys zs : List Char) (h : occursIn xs zs = true) :
    occursIn xs (ys ++ zs) = true := by
  induction ys with
  | nil => simpa using h
  | cons c cs ih => simp [occursIn, ih]

theorem data_append (s t : String) : (s ++ t).data = s.data ++ t.data := rfl

theorem occursIn_mem_joinSep (sep : String) (parts : List String) (x : String)
    (hx : x ∈ parts) : occursIn x.data (joinSep sep parts).data = true := by
  induction parts with
  | nil => simp at hx
  | cons y ys ih =>
    cases ys with
    | nil =>
      simp only [List.mem_singleton] at hx
      subst hx
      simpa [joinSep] using occursIn_of_leads x.data x.data (by simpa using leadsList_append_self x.data [])
    | cons z zs =>
      rcases List.mem_cons.1 hx with h | h
      · subst h
        simp only [joinSep, data_append, List.append_assoc]
        exact occursIn_of_leads _ _ (leadsList_append_self _ _)
      · have h2 := occursIn_append_right x.data sep.data _ (ih h)
        simp only [joinSep, data_append, List.append_assoc]
        exact occursIn_append_right _ _ _ h2

theorem mem_enumFrom_of_mem (x : α) :
    ∀ (l : List α) (n : Nat), x ∈ l → ∃ p ∈ l.enumFrom n, p.2 = x := by
  intro l
  induction l with
  | nil => intro n h; simp at h
  | cons a as ih =>
    intro n h
    rcases List.mem_cons.1 h with h | h
    · exact ⟨(n, a), by simp [List.enumFrom_cons], h.symm ▸ rfl⟩
    · obtain ⟨p, hp, hpx⟩ := ih (n + 1) h
      exact ⟨p, by simp [List.enumFrom_cons, hp], hpx⟩

theorem mem_enum_of_mem (x : α) (l : List α) (h : x ∈ l) :
    ∃ p ∈ l.enum, p.2 = x := by
  simpa [List.enum] using mem_enumFrom_of_mem x l 0 h

/-- C2 amended: mergeBulletsToCount preserves every non-empty bullet text:
the trimmed joined text of each input bullet survives as a contiguous part
of some output bullet, for every target count — merging never deletes a
non-empty bullet.  (The deletion exhibited by the counterexample lives in
enforceProjectsContracts, which drops projects beyond the per-mode cap.) -/
theorem claim_merge_preserves_bullets (bullets : List PdfBullet) (k : Nat)
    (b : PdfBullet) (hb : b ∈ bullets) (hne : jsTrim (joinSep " " b.lines) ≠ "") :
    ∃ out ∈ mergeBulletsToCount bullets k,
      ∃ t, out.lines = [t] ∧
        occursIn (jsTrim (joinSep " " b.lines)).data t.data = true := by
  have htexts : jsTrim (joinSep " " b.lines) ∈
      (bullets.map (fun b2 => jsTrim (joinSep " " b2.lines))).filter (fun t => t ≠ "") := by
    apply List.mem_filter.2
    constructor
    · exact List.mem_map_of_mem _ hb
    · simpa using hne
  simp only [mergeBulletsToCount]
  split
  · refine ⟨⟨[jsTrim (joinSep " " b.lines)]⟩, List.mem_map_of_mem _ htexts, _, rfl, ?_⟩
    exact occursIn_of_leads _ _ (by simpa using leadsList_append_self (jsTrim (joinSep " " b.lines)).data [])
  · split
    · refine ⟨_, List.mem_singleton_self _, _, rfl, ?_⟩
      exact occursIn_mem_joinSep "; " _ _ htexts
    · rename_i hlen hk0
      obtain ⟨p, hp, hpx⟩ := mem_enum_of_mem _ _ htexts
      have hkpos : 0 < k := Nat.pos_of_ne_zero hk0
      refine ⟨⟨[joinSep "; " ((((bullets.map (fun b2 => jsTrim (joinSep " " b2.lines))).filter
        (fun t => t ≠ "")).enum.filter (fun q => q.1 % k = p.1 % k)).map (fun q => q.2))]⟩,
        ?_, _, rfl, ?_⟩
      · apply List.mem_map_of_mem
        apply List.mem_map_of_mem
        exact List.mem_range.2 (Nat.mod_lt _ hkpos)
      · apply occursIn_mem_joinSep
        rw [← hpx]
        apply List.mem_map_of_mem
        apply List.mem_filter.2
        exact ⟨hp, by simp⟩

/-- Witness for the merge preservation theorem: merging three bullets down
to two keeps the third bullet text inside an output bullet. -/
theorem claim_merge_preserves_bullets_witness :
    ∃ out ∈ mergeBulletsToCount [⟨["aa"]⟩, ⟨["bb"]⟩, ⟨["cc"]⟩] 2,
      ∃ t, out.lines = [t] ∧
        occursIn (jsTrim (joinSep " " (PdfBullet.mk ["cc"]).lines)).data t.data = true :=
  claim_merge_preserves_bullets [⟨["aa"]⟩, ⟨["bb"]⟩, ⟨["cc"]⟩] 2 ⟨["cc"]⟩
    (by decide) (by with_unfolding_all decide)

theorem mergeBulletsToCount_length_le (b : List PdfBullet) (k : Nat) (hk : k ≠ 0) :
    (mergeBulletsToCount b k).length ≤ k := by
  simp only [mergeBulletsToCount]
  split
  · rename_i hlen
    simpa using hlen
  all_goals simp

theorem expHeightLoop_bullets_le (styles : Styles) (maxH : ℚ) :
    ∀ (fuel : Nat) (j : PdfJob), j.bullets.length ≤ 2 →
      (expHeightLoop styles maxH fuel j).bullets.length ≤ 2 := by
  intro fuel
  induction fuel with
  | zero => intro j h; exact h
  | succ n ih =>
    intro j h
    simp only [expHeightLoop]
    split
    · exact h
    · split
      · apply ih
        have := mergeBulletsToCount_length_le j.bullets ROLE_BULLETS_MIN (by decide)
        simpa [ROLE_BULLETS_MIN] using this
      · apply ih
        simpa using h

theorem enforceExperienceJob_onePage_bullets_le (styles : Styles) (j : PdfJob) :
    (enforceExperienceJob styles ContractMode.onePage j).bullets.length ≤ 2 := by
  simp only [enforceExperienceJob]
  apply expHeightLoop_bullets_le
  simp [ROLE_BULLETS_MAX_ONE_PAGE, ROLE_BULLETS_MAX_TWO_PAGE]

theorem enforceExperienceContracts_onePage_le2 (m : PdfModel) (styles : Styles) :
    ExpBulletsLe2 (enforceExperienceContracts m styles ContractMode.onePage) := by
  intro s hs
  simp only [enforceExperienceContracts] at hs
  obtain ⟨s0, hs0, rfl⟩ := List.mem_map.1 hs
  split
  · rename_i hne
    intro hEq
    exact absurd hEq hne
  · intro _ it hit j hij
    obtain ⟨it0, hit0, rfl⟩ := List.mem_map.1 hit
    match it0 with
    | .job j0 =>
      cases hij
      exact enforceExperienceJob_onePage_bullets_le styles j0
    | .paragraph l => simp at hij
    | .skills l => simp at hij
    | .educationEntry e => simp at hij
    | .projects p => simp at hij
    | .bullets bs => simp at hij

theorem enforceProjectsContracts_preserves_le2 (m : PdfModel) (styles : Styles)
    (mode : ContractMode) (h : ExpBulletsLe2 m) :
    ExpBulletsLe2 (enforceProjectsContracts m styles mode) := by
  intro s hs
  simp only [enforceProjectsContracts] at hs
  obtain ⟨s0, hs0, rfl⟩ := List.mem_map.1 hs
  split
  · exact h s0 hs0
  · rename_i hnp
    simp only [not_not] at hnp
    split
    · exact h s0 hs0
    · intro hEq
      have hE : s0.title = "EXPERIENCE" := hEq
      rw [hnp] at hE
      exact absurd hE (by decide)

theorem enforceSkillsContracts_preserves_le2 (m : PdfModel) (styles : Styles)
    (mode : ContractMode) (h : ExpBulletsLe2 m) :
    ExpBulletsLe2 (enforceSkillsContracts m styles mode) := by
  intro s hs
  simp only [enforceSkillsContracts] at hs
  obtain ⟨s0, hs0, rfl⟩ := List.mem_map.1 hs
  split
  · exact h s0 hs0
  · rename_i hns
    simp only [not_not] at hns
    split
    · exact h s0 hs0
    · split
      · exact h s0 hs0
      · intro hEq
        have hE : s0.title = "EXPERIENCE" := hEq
        rw [hns] at hE
        exact absurd hE (by decide)

theorem enforceEducationContracts_onePage_preserves_le2 (m : PdfModel) (styles : Styles)
    (h : ExpBulletsLe2 m) :
    ExpBulletsLe2 (enforceEducationContracts m styles ContractMode.onePage) := by
  intro s hs
  simp only [enforceEducationContracts] at hs
  split at hs
  · rename_i hmode
    exact absurd hmode (by decide)
  · obtain ⟨s0, hs0, rfl⟩ := List.mem_map.1 hs
    split
    · exact h s0 hs0
    · rename_i hne
      simp only [not_not] at hne
      split
      · exact h s0 hs0
      · intro hEq
        have hE : s0.title = "EXPERIENCE" := hEq
        rw [hne] at hE
        exact absurd hE (by decide)

theorem enforceSectionContracts_onePage_le2 (m : PdfModel) (styles : Styles) :
    ExpBulletsLe2 (enforceSectionContracts m styles ContractMode.onePage) := by
  simp only [enforceSectionContracts]
  apply enforceEducationContracts_onePage_preserves_le2
  apply enforceSkillsContracts_preserves_le2
  apply enforceProjectsContracts_preserves_le2
  exact enforceExperienceContracts_onePage_le2 _ _

theorem onePageLoop_fitted_shape (styles : Styles) :
    ∀ (steps : List (PdfModel → PdfModel)) (m m2 : PdfModel),
      onePageLoop styles steps m = AdaptLoopResult.fitted m2 →
      ∃ x, m2 = enforceSectionContracts x styles ContractMode.onePage := by
  intro steps
  induction steps with
  | nil => intro m m2 h; simp [onePageLoop] at h
  | cons f fs ih =>
    intro m m2 h
    simp only [onePageLoop] at h
    split at h
    · cases h
      exact ⟨f m, rfl⟩
    · exact ih _ _ h

theorem prod_fst_ite {c : Prop} [Decidable c] (a : PdfModel) (x y : RequestedMode) :
    (if c then (a, x) else (a, y)).1 = a := by
  split <;> rfl

theorem adaptToFit_onePage_shape (base : PdfModel) (styles : Styles) :
    ∃ x, (adaptToFit base styles RequestedMode.onePage).1 =
      enforceSectionContracts x styles ContractMode.onePage := by
  simp only [adaptToFit]
  cases hres : onePageLoop styles (onePageSteps styles)
      (enforceSectionContracts (enforceConstraints base) styles ContractMode.onePage) with
  | fitted m =>
    obtain ⟨x, hx⟩ := onePageLoop_fitted_shape styles _ _ _ hres
    exact ⟨x, hx⟩
  | exhausted m =>
    exact ⟨enforceConstraints m, prod_fst_ite _ _ _⟩

/-- C7 amended: whenever a one-page render reports one-page mode, every
experience role of the final model carries at most the one-page maximum
of two bullets.  The summary line/height bound of the original claim is
only a best-effort eight-round clamp and can be exceeded even in reported
one-page mode, so it is not part of the amended statement. -/
theorem claim_one_page_role_bullets (base : PdfModel) (styles : Styles)
    (h : (adaptToFit base styles RequestedMode.onePage).2 = RequestedMode.onePage) :
    ExpBulletsLe2 (adaptToFit base styles RequestedMode.onePage).1 := by
  obtain ⟨x, hx⟩ := adaptToFit_onePage_shape base styles
  rw [hx]
  exact enforceSectionContracts_onePage_le2 x styles

set_option maxRecDepth 200000 in
/-- Witness for the amended one-page role claim at a concrete resume that
renders in one-page mode. -/
theorem claim_one_page_role_bullets_witness :
    (adaptToFit (buildPdfModel longSummaryResume) wideStyles RequestedMode.onePage).2 =
      RequestedMode.onePage ∧
    ExpBulletsLe2 (adaptToFit (buildPdfModel longSummaryResume) wideStyles RequestedMode.onePage).1 :=
  ⟨by with_unfolding_all decide,
   claim_one_page_role_bullets (buildPdfModel longSummaryResume) wideStyles
     (by with_unfolding_all decide)⟩

theorem dropWhile_idem' {α} (p : α → Bool) (l : List α) :
    (l.dropWhile p).dropWhile p = l.dropWhile p := by
  induction l with
  | nil => rfl
  | cons c cs ih =>
    by_cases h : p c = true
    · simp [List.dropWhile_cons, h, ih]
    · simp [List.dropWhile_cons, h]

theorem head_dropWhile_false' {α} (p : α → Bool) (l : List α) (c : α)
    (h : (l.dropWhile p).head? = some c) : p c = false := by
  induction l with
  | nil => simp [List.dropWhile] at h
  | cons a as ih =>
    rw [List.dropWhile_cons] at h
    split at h
    · exact ih h
    · rename_i hpa
      simp at h
      rw [← h]
      simpa using hpa

theorem dropWhile_eq_self_of_head' {α} (p : α → Bool) (l : List α)
    (h : ∀ c, l.head? = some c → p c = false) : l.dropWhile p = l := by
  cases l with
  | nil => rfl
  | cons a as =>
    rw [List.dropWhile_cons, if_neg]
    simp [h a rfl]

theorem length_dropWhile_le' {α} (p : α → Bool) (l : List α) :
    (l.dropWhile p).length ≤ l.length := by
  induction l with
  | nil => simp [List.dropWhile]
  | cons c cs ih =>
    rw [List.dropWhile_cons]
    split
    · exact Nat.le_trans ih (by simp)
    · simp

theorem dropWhile_append_of_fixed' {α} (p : α → Bool) (a b : List α)
    (ha : a ≠ []) (hfix : a.dropWhile p = a) : (a ++ b).dropWhile p = a ++ b := by
  cases a with
  | nil => exact absurd rfl ha
  | cons c cs =>
    have hc : p c = false := by
      by_contra hcon
      have h' : p c = true := by simpa using hcon
      rw [List.dropWhile_cons, if_pos h'] at hfix
      have hlen := congrArg List.length hfix
      have := length_dropWhile_le' p cs
      simp at hlen
      omega
    rw [List.cons_append, List.dropWhile_cons, if_neg (by simp [hc])]

theorem head?_of_listPref {α} {s l : List α} (h : s <+: l) (c : α)
    (hc : s.head? = some c) : l.head? = some c := by
  obtain ⟨t, rfl⟩ := h
  cases s with
  | nil => simp at hc
  | cons a as =>
    simp at hc
    simp [← hc]


theorem string_eq_of_data {a b : String} (h : a.data = b.data) : a = b := by
  cases a
  cases b
  exact congrArg String.mk h


theorem jsTrim_trimmedNE_or_empty (s : String) :
    jsTrim s = "" ∨ TrimmedNE (jsTrim s) := by
  by_cases hout : (jsTrim s).data = []
  · left
    exact string_eq_of_data hout
  · right
    have hdata : (jsTrim s).data =
        ((s.data.dropWhile isWsChar).reverse.dropWhile isWsChar).reverse := rfl
    refine ⟨hout, ?_, ?_⟩
    · apply dropWhile_eq_self_of_head'
      intro c hc
      have hpref : (jsTrim s).data <+: s.data.dropWhile isWsChar := by
        rw [hdata]
        have h1 : (s.data.dropWhile isWsChar).reverse.dropWhile isWsChar <:+
            (s.data.dropWhile isWsChar).reverse := List.dropWhile_suffix _
        have h2 := List.reverse_prefix.2 h1
        rwa [List.reverse_reverse] at h2
      exact head_dropWhile_false' isWsChar s.data c (head?_of_listPref hpref c hc)
    · rw [hdata, List.reverse_reverse]
      exact dropWhile_idem' _ _

theorem jsTrim_of_trimmedNE (t : String) (h : TrimmedNE t) : jsTrim t = t := by
  obtain ⟨hne, h1, h2⟩ := h
  apply string_eq_of_data
  show trimChars t.data = t.data
  unfold trimChars trimEndChars
  rw [h1, h2, List.reverse_reverse]

theorem trimmedNE_append (a sep b : String) (ha : TrimmedNE a) (hb : TrimmedNE b) :
    TrimmedNE (a ++ sep ++ b) := by
  obtain ⟨hane, ha1, ha2⟩ := ha
  obtain ⟨hbne, hb1, hb2⟩ := hb
  have hdata : (a ++ sep ++ b).data = a.data ++ (sep.data ++ b.data) := by
    simp [data_append, List.append_assoc]
  refine ⟨?_, ?_, ?_⟩
  · rw [hdata]
    intro hnil
    rcases List.append_eq_nil.1 hnil with ⟨h1, _⟩
    exact hane h1
  · rw [hdata]
    exact dropWhile_append_of_fixed' _ _ _ hane ha1
  · rw [hdata, List.reverse_append, List.reverse_append, List.append_assoc]
    exact dropWhile_append_of_fixed' _ _ _ (by simpa using hbne) hb2

theorem trimmedNE_joinSep (sep : String) (parts : List String) (hne : parts ≠ [])
    (h : ∀ x ∈ parts, TrimmedNE x) : TrimmedNE (joinSep sep parts) := by
  induction parts with
  | nil => exact absurd rfl hne
  | cons x xs ih =>
    cases xs with
    | nil => exact h x (by simp)
    | cons y ys =>
      have hx := h x (by simp)
      have hrest := ih (by simp) (fun z hz => h z (by simp [hz]))
      rw [joinSep]
      exact trimmedNE_append x sep (joinSep sep (y :: ys)) hx hrest


theorem snd_mem_of_mem_enumFrom {α} (p : Nat × α) :
    ∀ (l : List α) (n : Nat), p ∈ l.enumFrom n → p.2 ∈ l := by
  intro l
  induction l with
  | nil => intro n h; simp [List.enumFrom] at h
  | cons a as ih =>
    intro n h
    rw [List.enumFrom] at h
    rcases List.mem_cons.1 h with h | h
    · rw [h]
      simp
    · exact List.mem_cons_of_mem _ (ih _ h)

theorem snd_mem_of_mem_enum {α} (p : Nat × α) (l : List α) (h : p ∈ l.enum) :
    p.2 ∈ l :=
  snd_mem_of_mem_enumFrom p l 0 h

theorem bucket_nonempty (texts : List String) (k r : Nat) (hr : r < k)
    (hlen : k < texts.length) :
    (texts.enum.filter (fun p => p.1 % k = r)).map (fun p => p.2) ≠ [] := by
  intro hcontra
  have hfil : texts.enum.filter (fun p => decide (p.1 % k = r)) = [] := by
    simpa using hcontra
  have hall := List.filter_eq_nil_iff.1 hfil
  have hrlen : r < texts.length := lt_trans hr hlen
  have hmem : r ∈ texts.enum.map Prod.fst := by
    rw [List.enum_map_fst]
    exact List.mem_range.2 hrlen
  obtain ⟨p, hp, hpr⟩ := List.mem_map.1 hmem
  apply hall p hp
  simp [hpr, Nat.mod_eq_of_lt hr]

theorem mergeBulletsToCount_shape (b : List PdfBullet) (k : Nat) (hk : k ≠ 0) :
    ∃ ts : List String, mergeBulletsToCount b k = ts.map (fun t => PdfBullet.mk [t]) ∧
      ts.length ≤ k ∧ ∀ t ∈ ts, TrimmedNE t := by
  have htextmem : ∀ t ∈ (b.map (fun x => jsTrim (joinSep " " x.lines))).filter
      (fun t => t ≠ ""), TrimmedNE t := by
    intro t ht
    obtain ⟨hmem, hne⟩ := List.mem_filter.1 ht
    obtain ⟨b0, _, rfl⟩ := List.mem_map.1 hmem
    rcases jsTrim_trimmedNE_or_empty (joinSep " " b0.lines) with h | h
    · rw [h] at hne
      simp at hne
    · exact h
  simp only [mergeBulletsToCount]
  split
  · rename_i hlen
    exact ⟨_, rfl, by simpa using hlen, htextmem⟩
  · rename_i hlen
    refine ⟨(List.range k).map (fun r => joinSep "; "
      ((((b.map (fun x => jsTrim (joinSep " " x.lines))).filter
        (fun t => t ≠ "")).enum.filter (fun p => p.1 % k = r)).map (fun p => p.2))),
      ?_, ?_, ?_⟩
    · rw [List.map_map, List.map_map]
      rfl
    · simp
    · intro t ht
      obtain ⟨r, hr, rfl⟩ := List.mem_map.1 ht
      have hrk : r < k := List.mem_range.1 hr
      apply trimmedNE_joinSep
      · exact bucket_nonempty _ k r hrk (by omega)
      · intro x hx
        obtain ⟨p, hp, rfl⟩ := List.mem_map.1 hx
        obtain ⟨hpenum, _⟩ := List.mem_filter.1 hp
        exact htextmem _ (snd_mem_of_mem_enum p _ hpenum)

theorem mergeBulletsToCount_idem (b : List PdfBullet) (k : Nat) (hk : k ≠ 0) :
    mergeBulletsToCount (mergeBulletsToCount b k) k = mergeBulletsToCount b k := by
  obtain ⟨ts, hEq, hLen, hAll⟩ := mergeBulletsToCount_shape b k hk
  rw [hEq]
  have htexts : ((ts.map (fun t => PdfBullet.mk [t])).map
      (fun x => jsTrim (joinSep " " x.lines))).filter (fun t => t ≠ "") = ts := by
    rw [List.map_map]
    have h1 : ∀ t ∈ ts, ((fun x => jsTrim (joinSep " " x.lines)) ∘
        (fun t => PdfBullet.mk [t])) t = t := by
      intro t ht
      show jsTrim (joinSep " " [t]) = t
      exact jsTrim_of_trimmedNE t (hAll t ht)
    rw [List.map_congr_left h1, List.map_id']
    apply List.filter_eq_self.2
    intro t ht
    simp only [ne_eq, decide_eq_true_eq]
    intro hc
    exact (hAll t ht).1 (by rw [hc])
  simp only [mergeBulletsToCount]
  rw [htexts, if_pos hLen]



theorem projectItemsOf_map_projects (l : List PdfProject) :
    projectItemsOf (l.map (fun p => PdfSectionItem.projects p)) = l := by
  induction l with
  | nil => rfl
  | cons p ps ih => simp [projectItemsOf, List.filterMap_cons] at ih ⊢; exact ih

theorem enforceConstraints_fixed (m : PdfModel) (h : ∀ s ∈ m.sections, ECStable s) :
    enforceConstraints m = m := by
  cases m with
  | mk header sections =>
    simp only [enforceConstraints]
    congr 1
    rw [List.map_map]
    conv_rhs => rw [← List.map_id' sections]
    apply List.map_congr_left
    intro s hs
    obtain ⟨h1, h2⟩ := h s hs
    obtain ⟨title, items⟩ := s
    simp only [Function.comp_apply]
    by_cases hT : title = "EXPERIENCE"
    · subst hT
      simp
      conv_rhs => rw [← List.map_id' items]
      apply List.map_congr_left
      intro it hit
      match it with
      | PdfSectionItem.job j =>
        have hm := h1 rfl (PdfSectionItem.job j) hit j rfl
        simp [hm]
      | PdfSectionItem.paragraph l => rfl
      | PdfSectionItem.skills l => rfl
      | PdfSectionItem.educationEntry e => rfl
      | PdfSectionItem.projects p => rfl
      | PdfSectionItem.bullets bs => rfl
    · by_cases hP : title = "PROJECTS"
      · subst hP
        have hle := h2 rfl
        simp [hT, hle]
      · simp [hT, hP]


theorem enforceConstraints_stable (m : PdfModel) :
    ∀ s ∈ (enforceConstraints m).sections, ECStable s := by
  intro s hs
  simp only [enforceConstraints] at hs
  obtain ⟨s1, hs1, rfl⟩ := List.mem_map.1 hs
  obtain ⟨s0, hs0, rfl⟩ := List.mem_map.1 hs1
  obtain ⟨title, items⟩ := s0
  by_cases hT : title = "EXPERIENCE"
  · subst hT
    simp
    refine ⟨fun _ it hit j hij => ?_,
      fun hp => absurd (show ("EXPERIENCE" : String) = "PROJECTS" from hp) (by decide)⟩
    obtain ⟨it0, hit0, rfl⟩ := List.mem_map.1 hit
    match it0 with
    | PdfSectionItem.job j0 =>
      cases hij
      exact mergeBulletsToCount_idem j0.bullets ROLE_BULLETS_MAX_TWO_PAGE (by decide)
    | PdfSectionItem.paragraph l => simp at hij
    | PdfSectionItem.skills l => simp at hij
    | PdfSectionItem.educationEntry e => simp at hij
    | PdfSectionItem.projects p => simp at hij
    | PdfSectionItem.bullets bs => simp at hij
  · by_cases hP : title = "PROJECTS"
    · subst hP
      by_cases hle : (projectItemsOf items).length ≤ 4
      · simp [hT, hle]
        refine ⟨fun hE => absurd (show ("PROJECTS" : String) = "EXPERIENCE" from hE)
          (by decide), fun _ => hle⟩
      · simp only [ne_eq, String.reduceEq, not_false_eq_true, not_true_eq_false,
          if_true, if_false, ite_true, ite_false, hle]
        refine ⟨fun hE => absurd (show ("PROJECTS" : String) = "EXPERIENCE" from hE)
          (by decide), fun _ => ?_⟩
        rw [projectItemsOf_map_projects]
        simp only [List.length_append, List.length_dropLast, List.length_take,
          List.length_cons, List.length_nil]
        omega
    · simp [hT, hP]
      exact ⟨fun hE => absurd hE hT, fun hp => absurd hp hP⟩

theorem enforceConstraints_idem (m : PdfModel) :
    enforceConstraints (enforceConstraints m) = enforceConstraints m :=
  enforceConstraints_fixed _ (enforceConstraints_stable m)

/-- C3 amended: the adaptation pipeline is idempotent in multi-page mode:
re-running adaptToFit on its own multi-page output returns the same model
and the same modeUsed, because enforceConstraints is idempotent.  In the
strict modes the pipeline is not idempotent (see the counterexample). -/
theorem claim_multi_page_idempotent (m : PdfModel) (styles : Styles) :
    adaptToFit (adaptToFit m styles RequestedMode.multiPage).1 styles RequestedMode.multiPage =
      adaptToFit m styles RequestedMode.multiPage := by
  simp only [adaptToFit]
  rw [enforceConstraints_idem]

end AtsEngine
